import Mathlib

/-!
# Verification of the `aes256` filter (`src/sx-api/sxfilter/filter_aes256.c`)

Shallow embedding of the streaming authenticated-encryption filter.  Byte
strings are `List Nat` (each element a byte value).  The OpenSSL primitives
(AES-256 block cipher, HMAC-SHA-1, HMAC-SHA-512) are external library code;
they are abstracted as a parameter record `Prims`, and the theorems assume
only their interface facts (digest lengths, block-cipher invertibility).
CBC chaining and PKCS#7 padding — performed inside OpenSSL's
`EVP_{En,De}cryptUpdate`/`..Final_ex` — are modelled from their standard
definitions below.
-/

namespace Aes256

/-- Byte strings. -/
abbrev Bytes := List Nat

/-! ## Constants (lines 62–68 of filter_aes256.c) -/

def FILTER_BLOCK_SIZE : Nat := 16384
def KEY_SIZE : Nat := 64            -- SHA512_DIGEST_LENGTH
def IV_SIZE : Nat := 16
def MAC_SIZE : Nat := 32
def SALT_SIZE : Nat := 16
def FP_SIZE : Nat := SALT_SIZE + KEY_SIZE   -- 80
def AES_BLOCK_SIZE : Nat := 16
def EVP_MAX_MD_SIZE : Nat := 64

/-- Staging buffer capacity: `sizeof(actx->in)` (line 93). -/
def STAGING_SIZE : Nat := IV_SIZE + FILTER_BLOCK_SIZE + AES_BLOCK_SIZE + MAC_SIZE

/-! ## Abstract cryptographic primitives -/

/-- The externally provided primitives.  `encB`/`decB` are the AES-256 block
cipher (key, 16-byte block ↦ 16-byte block); `h1` is HMAC-SHA-1
(key, message ↦ 20-byte digest); `h512` is HMAC-SHA-512
(key, message ↦ 64-byte digest). -/
structure Prims where
  encB : Bytes → Bytes → Bytes
  decB : Bytes → Bytes → Bytes
  h1 : Bytes → Bytes → Bytes
  h512 : Bytes → Bytes → Bytes

/-- HMAC-SHA-1 digests are 20 bytes long. -/
def GoodH1 (p : Prims) : Prop := ∀ k m, (p.h1 k m).length = 20

/-- HMAC-SHA-512 digests are 64 bytes long. -/
def GoodH512 (p : Prims) : Prop := ∀ k m, (p.h512 k m).length = 64

/-- The block cipher maps 16-byte blocks to 16-byte blocks. -/
def GoodEnc (p : Prims) : Prop :=
  ∀ k b, b.length = AES_BLOCK_SIZE → (p.encB k b).length = AES_BLOCK_SIZE

/-- Block decryption inverts block encryption. -/
def GoodDec (p : Prims) : Prop :=
  ∀ k b, b.length = AES_BLOCK_SIZE → p.decB k (p.encB k b) = b

/-! ## CBC mode with PKCS#7 padding

Modelled from the OpenSSL EVP implementation of `EVP_aes_256_cbc` used by the
filter (`EVP_EncryptUpdate` + `EVP_EncryptFinal_ex` and the decrypt
counterparts): standard CBC chaining and a strict PKCS#7 padding check on
finalisation. -/

/-- Pointwise XOR of two byte strings. -/
def xorBytes (a b : Bytes) : Bytes := List.zipWith (fun x y => x ^^^ y) a b

/-- CBC encryption of a message whose length is a multiple of 16. -/
def cbcEnc (p : Prims) (k : Bytes) (iv m : Bytes) : Bytes :=
  if h : m = [] then []
  else
    p.encB k (xorBytes iv (m.take AES_BLOCK_SIZE)) ++
      cbcEnc p k (p.encB k (xorBytes iv (m.take AES_BLOCK_SIZE))) (m.drop AES_BLOCK_SIZE)
termination_by m.length
decreasing_by
  simpa using Nat.sub_lt (List.length_pos.mpr h) (by norm_num [AES_BLOCK_SIZE])

/-- CBC decryption (no padding handling). -/
def cbcDec (p : Prims) (k : Bytes) (iv c : Bytes) : Bytes :=
  if h : c = [] then []
  else
    xorBytes iv (p.decB k (c.take AES_BLOCK_SIZE)) ++
      cbcDec p k (c.take AES_BLOCK_SIZE) (c.drop AES_BLOCK_SIZE)
termination_by c.length
decreasing_by
  simpa using Nat.sub_lt (List.length_pos.mpr h) (by norm_num [AES_BLOCK_SIZE])

/-- PKCS#7 padding appended by `EVP_EncryptFinal_ex`. -/
def pkcs7Pad (m : Bytes) : Bytes :=
  m ++ List.replicate (AES_BLOCK_SIZE - m.length % AES_BLOCK_SIZE)
        (AES_BLOCK_SIZE - m.length % AES_BLOCK_SIZE)

/-- Strict PKCS#7 padding check and removal performed by
`EVP_DecryptFinal_ex`; `none` models finalisation failure (bad padding). -/
def pkcs7Unpad (m : Bytes) : Option Bytes :=
  match m.getLast? with
  | none => none
  | some q =>
    if 1 ≤ q ∧ q ≤ AES_BLOCK_SIZE ∧ q ≤ m.length ∧
        (∀ x ∈ m.drop (m.length - q), x = q)
    then some (m.take (m.length - q)) else none

/-! ## Constant-time tag comparison (lines 458–467) -/

/-- The OR-accumulated XOR comparison of `hmac_compare`; the C function
returns a nonzero `int` exactly when the byte strings differ. -/
def hmac_compare (a b : Bytes) : Nat :=
  (List.zipWith (fun x y => x ^^^ y) a b).foldl (fun m x => m ||| x) 0

/-! ## The per-session cipher context (struct aes256_ctx, lines 87–97)

The fields track exactly the state `aes256_data_process` reads and writes:
`kmacIv`/`kmacBlk` are the keys installed into the `ivhash`/`hmac` HMAC
contexts at `prepare` (reused by the `hmac_init_ex(…, NULL, 0, NULL, NULL)`
re-initialisations), `kaes` is the key installed into the EVP cipher context,
`inbuf` is the valid prefix `in[0..inbytes)`, `blk` the valid prefix
`blk[0..blkbytes)`, and the counters/flags are verbatim. -/
structure Ctx where
  kmacIv : Bytes
  kmacBlk : Bytes
  kaes : Bytes
  ivmac : Bytes
  inbuf : Bytes
  blk : Bytes
  data_in : Nat
  data_out_left : Nat
  data_end : Bool
  decrypt_err : Bool
deriving DecidableEq

inductive Mode where
  | upload
  | download
deriving DecidableEq

inductive Action where
  | normal
  | rep
  | dataEnd
deriving DecidableEq

/-- Block-accumulation size: `FILTER_BLOCK_SIZE` on upload,
`sizeof(actx->in)` on download (line 474). -/
def bsizeOf : Mode → Nat
  | .upload => FILTER_BLOCK_SIZE
  | .download => STAGING_SIZE

/-! ## One upload block (lines 518–573) -/

/-- Encrypt one staged plaintext block: derive the IV by HMAC-SHA-1 over the
whole 64-byte `ivmac` buffer followed by the plaintext, save the digest as
the next `ivmac` (only its first 20 bytes are overwritten), CBC-encrypt with
padding, and append the truncated HMAC-SHA-512 tag.  The `.error` cases are
the two defensive digest-length checks (`ivlen < IV_SIZE`,
`maclen/2 != MAC_SIZE`), unreachable for real digest sizes. -/
def uploadBlock (p : Prims) (kiv kblk kaes ivmac pt : Bytes) :
    Except Unit (Bytes × Bytes) :=
  let mac := p.h1 kiv (ivmac ++ pt)
  if mac.length < IV_SIZE then .error ()
  else
    let ivaes := mac.take IV_SIZE
    let body := ivaes ++ cbcEnc p kaes ivaes (pkcs7Pad pt)
    let tag := p.h512 kblk body
    if tag.length / 2 ≠ MAC_SIZE then .error ()
    else .ok (body ++ tag.take MAC_SIZE, mac ++ ivmac.drop mac.length)

/-! ## One download block (lines 574–616) -/

inductive DecErr where
  | incomplete    -- inbytes < IV_SIZE + MAC_SIZE (line 579)
  | macSize       -- maclen/2 != MAC_SIZE (line 593)
  | tagMismatch   -- hmac_compare nonzero (line 597)
  | padFail       -- EVP_DecryptFinal_ex failed (line 611)
deriving DecidableEq

/-- Authenticate and decrypt one staged wire block `w`: split off the
trailing 32-byte tag, recompute HMAC-SHA-512 over `IV ‖ ciphertext`,
truncate to 32 bytes and compare; only on a match CBC-decrypt with the
on-wire IV and strip the padding. -/
def downloadBlock (p : Prims) (kblk kaes w : Bytes) : Except DecErr Bytes :=
  if w.length < IV_SIZE + MAC_SIZE then .error .incomplete
  else
    let body := w.take (w.length - MAC_SIZE)
    let tagRecv := w.drop (w.length - MAC_SIZE)
    let tag := p.h512 kblk body
    if tag.length / 2 ≠ MAC_SIZE then .error .macSize
    else if hmac_compare tagRecv (tag.take MAC_SIZE) ≠ 0 then .error .tagMismatch
    else
      match pkcs7Unpad (cbcDec p kaes (body.take IV_SIZE) (body.drop IV_SIZE)) with
      | none => .error .padFail
      | some pt => .ok pt

/-- Context state after a failed download block, mirroring which fields the C
code has already mutated when it returns `-1`: `inbytes` was decremented by
`MAC_SIZE` for all but the `incomplete` error, and `decrypt_err` is set for
tag mismatch and padding failure. -/
def dlErrCtx (ctx : Ctx) : DecErr → Ctx
  | .incomplete => ctx
  | .macSize => {ctx with inbuf := ctx.inbuf.take (ctx.inbuf.length - MAC_SIZE)}
  | .tagMismatch =>
      {ctx with inbuf := ctx.inbuf.take (ctx.inbuf.length - MAC_SIZE), decrypt_err := true}
  | .padFail =>
      {ctx with inbuf := ctx.inbuf.take (ctx.inbuf.length - MAC_SIZE), decrypt_err := true}

/-! ## Output staging (lines 476–497 and 618–642) -/

/-- Drain pending staged output (the `SXF_ACTION_REPEAT && data_out_left`
branch, lines 476–497).  Note the C code returns in both sub-branches:
when the drain completes it does not fall through to input ingestion. -/
def drainOut (ctx : Ctx) (inp : Bytes) (outsize : Nat) : Ctx × Action × Bytes :=
  if outsize < ctx.data_out_left then
    ({ctx with data_out_left := ctx.data_out_left - outsize}, Action.rep,
     (ctx.blk.drop (ctx.blk.length - ctx.data_out_left)).take outsize)
  else
    if ctx.data_in = inp.length then
      ({ctx with data_out_left := 0, blk := [], data_in := 0},
       if ctx.data_end then Action.dataEnd else Action.normal,
       ctx.blk.drop (ctx.blk.length - ctx.data_out_left))
    else
      ({ctx with data_out_left := 0, blk := []}, Action.rep,
       ctx.blk.drop (ctx.blk.length - ctx.data_out_left))

/-- Emit a freshly produced block (lines 620–642): deliver at most `outsize`
bytes now and stage the rest for `REPEAT` draining. -/
def emitBlock (ctx : Ctx) (inp : Bytes) (outsize : Nat) (blkOut : Bytes) :
    Ctx × Action × Bytes :=
  if outsize < blkOut.length then
    ({ctx with blk := blkOut, data_out_left := blkOut.length - outsize},
     Action.rep, blkOut.take outsize)
  else
    if ctx.data_in = inp.length then
      ({ctx with blk := [], data_in := 0},
       if ctx.data_end then Action.dataEnd else Action.normal, blkOut)
    else
      ({ctx with blk := []}, Action.rep, blkOut)

/-! ## The process entry point (lines 470–648) -/

/-- Shallow embedding of `aes256_data_process`.  The C function's `ssize_t`
return value is modelled as `Except`: a negative return (`-1`) becomes
`.error` carrying the context as mutated up to that point (no output bytes
are delivered), and a return of `n ≥ 0` becomes `.ok` carrying the updated
context, the outgoing `*action`, and the `n` bytes written to `out`. -/
def aes256_data_process (p : Prims) (mode : Mode) (ctx : Ctx) (inp : Bytes)
    (outsize : Nat) (action : Action) : Except Ctx (Ctx × Action × Bytes) :=
  if action = Action.rep ∧ ctx.data_out_left ≠ 0 then
    .ok (drainOut ctx inp outsize)
  else
    let ctx1 := if action = Action.dataEnd then {ctx with data_end := true} else ctx
    let bytes := if bsizeOf mode - ctx1.inbuf.length ≤ inp.length - ctx1.data_in
                 then bsizeOf mode - ctx1.inbuf.length
                 else inp.length - ctx1.data_in
    let ctx2 := {ctx1 with inbuf := ctx1.inbuf ++ (inp.drop ctx1.data_in).take bytes,
                           data_in := ctx1.data_in + bytes}
    if ctx2.inbuf.length = bsizeOf mode ∨
        (ctx2.inbuf.length ≠ 0 ∧ (action = Action.dataEnd ∨ ctx2.data_end)) then
      match mode with
      | .upload =>
        match uploadBlock p ctx2.kmacIv ctx2.kmacBlk ctx2.kaes ctx2.ivmac ctx2.inbuf with
        | .error _ => .error ctx2
        | .ok (w, ivmac') =>
            .ok (emitBlock {ctx2 with ivmac := ivmac', inbuf := []} inp outsize w)
      | .download =>
        match downloadBlock p ctx2.kmacBlk ctx2.kaes ctx2.inbuf with
        | .error e => .error (dlErrCtx ctx2 e)
        | .ok pt => .ok (emitBlock {ctx2 with inbuf := []} inp outsize pt)
    else
      .ok ({ctx2 with data_in := 0}, Action.normal, [])

/-! ## The host driver

A host streams a byte string through the filter by calling `process`
repeatedly on the same input slice while the outgoing action is `Repeat`.
`OUTBUF` is a caller output buffer large enough for any single block
(`sizeof(actx->in)` bytes), so draining never splits a block.  `runLoop`
is fuelled; the lemmas below show the fuel is never exhausted when it
exceeds the number of blocks. -/

def OUTBUF : Nat := STAGING_SIZE

def runLoop (p : Prims) (mode : Mode) :
    Nat → Ctx → Bytes → Action → Except Ctx (Ctx × Bytes × Action)
  | 0, ctx, _, _ => .error ctx
  | fuel + 1, ctx, inp, act =>
    match aes256_data_process p mode ctx inp OUTBUF act with
    | .error e => .error e
    | .ok (ctx', act', out) =>
      if act' = Action.rep then
        match runLoop p mode fuel ctx' inp Action.rep with
        | .error e => .error e
        | .ok (ctx'', rest, actF) => .ok (ctx'', out ++ rest, actF)
      else .ok (ctx', out, act')

/-! ## The prepare entry point (`aes256_data_prepare`, lines 246–456)

The filesystem under `<cfgdir>` and the custom-metadata map are modelled as
an `Fs` record of optional file/entry contents; `prepare` returns the updated
record together with either an error kind (the C function returns `-1` after
logging) or the prepared session keys.  Interactive password entry plus
`derive_key` (the `while getpassword(...) == 1` loops at lines 326 and 367)
is abstracted as `pwDerive repeat salt`, yielding the derived 64-byte key or
`none` when input cannot be obtained; the `keyfp` digest pipeline
(SHA-256 → hex → `derive_key`, lines 193–234) is abstracted as
`fpDigest key fp_salt`, and `RAND_pseudo_bytes` output as `randSalt`.
Host file I/O is modelled as reliable except where a claim concerns a
failure: a short `custfp` file makes the 96-byte read fail, and the
key-cache write attempt (lines 390–402) has an explicit outcome
`KeyCacheIO`. -/

/-- Contents of `<cfgdir>/custfp`, `<cfgdir>/key` and of the `aes256_fp`
custom-metadata entry (`none` = absent). -/
structure Fs where
  custfp : Option Bytes
  keyfile : Option Bytes
  meta : Option Bytes
deriving DecidableEq

/-- Outcome of the best-effort key-cache write (lines 390–402). -/
inductive KeyCacheIO where
  | ok         -- open, write and close all succeed
  | openFail   -- open fails (line 391)
  | writeFail  -- write is short (line 394): file is unlinked
  | closeFail  -- close fails (line 398): file is unlinked
deriving DecidableEq

/-- Environment of one `prepare` call. -/
structure PrepEnv where
  custfp : Option Bytes
  keyfile : Option Bytes
  meta : Option Bytes
  pwDerive : Bool → Bytes → Option Bytes
  fpDigest : Bytes → Bytes → Bytes
  randSalt : Bytes
  saltInit : Bytes   -- contents of the uninitialised stack buffer `salt`
  keyCache : KeyCacheIO

def fs0 (E : PrepEnv) : Fs := ⟨E.custfp, E.keyfile, E.meta⟩

inductive PrepErr where
  | versionMismatch   -- line 256
  | ioError           -- custfp create/read failure (lines 278–301)
  | configError       -- "Invalid configuration data" (line 337)
  | passwordFail      -- getpassword returns -1
  | invalidPassword   -- keyfp digest mismatch (line 221)
deriving DecidableEq

/-- Prepared session state: the derived master key as copied into
`actx->key`, and the keys actually installed into the two HMAC contexts and
the EVP cipher context. -/
structure PrepSt where
  key : Bytes
  hmacIvKey : Bytes
  hmacBlkKey : Bytes
  aesKey : Bytes
  fs : Fs
deriving DecidableEq

/-- The 128 bytes of context memory starting at `actx->key`: the 64-byte
`key[KEY_SIZE]` array (calloc-zeroed, then overwritten by
`memcpy(actx->key, key, sizeof(actx->key))`, line 414) immediately followed
by the 64-byte `ivmac[EVP_MAX_MD_SIZE]` array, which is still all zero from
`calloc` (line 406) when the cipher contexts are keyed at lines 436/445. -/
def ctxKeyRegion (key : Bytes) : Bytes :=
  ((key ++ List.replicate KEY_SIZE 0).take KEY_SIZE) ++
    List.replicate EVP_MAX_MD_SIZE 0

/-- Session keys installed at lines 418–451: both HMAC contexts are keyed
with `(actx->key, KEY_SIZE/2)`, and the AES-256-CBC context with the 32
bytes starting at `actx->key + KEY_SIZE` — offset 64, i.e. the zeroed
`ivmac` field, not the second half of the key. -/
def mkPrepSt (key : Bytes) (fs : Fs) : PrepSt :=
  { key := key
    hmacIvKey := key.take (KEY_SIZE / 2)
    hmacBlkKey := key.take (KEY_SIZE / 2)
    aesKey := ((ctxKeyRegion key).drop KEY_SIZE).take 32
    fs := fs }

/-- Custom-fingerprint reconciliation (lines 261–319).  When the blob is
absent or 17 bytes long and the metadata map holds `aes256_fp`, that value
becomes the configuration blob; `<cfgdir>/custfp` is created from it when
absent, and when present with different content both `custfp` and `key` are
unlinked (note: `custfp` is not re-created in this call). -/
def custfpStep (fs : Fs) (cfgdata : Option Bytes) :
    Except (PrepErr × Fs) (Option Bytes × Fs) :=
  if cfgdata = none ∨ cfgdata.map List.length = some (SALT_SIZE + 1) then
    match fs.meta with
    | some mdata =>
      match fs.custfp with
      | none => .ok (some mdata, {fs with custfp := some mdata})
      | some content =>
        if content.length < SALT_SIZE + FP_SIZE then .error (.ioError, fs)
        else if (content.take (SALT_SIZE + FP_SIZE)).take mdata.length ≠ mdata then
          .ok (some mdata, {fs with custfp := none, keyfile := none})
        else .ok (some mdata, fs)
    | none => .ok (cfgdata, fs)
  else .ok (cfgdata, fs)

/-- Blob dispatch by length (lines 321–340).  Returns the salt, the optional
shipped fingerprint, and — in paranoid mode, which prompts immediately —
the derived key.  With no blob at all the dispatch is skipped entirely and
the `salt` buffer keeps its uninitialised contents. -/
def dispatchStep (pwDerive : Bool → Bytes → Option Bytes) (saltInit : Bytes)
    (mode : Mode) (cfgdata : Option Bytes) (fs : Fs) :
    Except (PrepErr × Fs) (Bytes × Option Bytes × Option Bytes) :=
  match cfgdata with
  | none => .ok (saltInit, none, none)
  | some c =>
    if c.length = SALT_SIZE then
      match pwDerive (mode = Mode.upload) (c.take SALT_SIZE) with
      | none => .error (.passwordFail, fs)
      | some key => .ok (c.take SALT_SIZE, none, some key)
    else if c.length = SALT_SIZE + 1 then .ok (c.take SALT_SIZE, none, none)
    else if c.length = SALT_SIZE + FP_SIZE then
      .ok (c.take SALT_SIZE, some ((c.drop SALT_SIZE).take FP_SIZE), none)
    else .error (.configError, fs)

/-- Reading `<cfgdir>/key` (lines 349–365): success requires reading exactly
`KEY_SIZE` bytes. -/
def keyFileRead : Option Bytes → Option Bytes
  | none => none
  | some kb => if KEY_SIZE ≤ kb.length then some (kb.take KEY_SIZE) else none

/-- Key acquisition when paranoid mode did not already obtain a key
(lines 342–389): try the key cache, otherwise prompt (repeat-confirmed
when uploading with no shipped fingerprint), then verify the shipped
fingerprint or create one and store it in the metadata map.  The returned
`Bool` records whether the key came from a prompt, in which case the
key-cache write is attempted afterwards. -/
def acquireKeyCore (pwDerive : Bool → Bytes → Option Bytes)
    (fpDigest : Bytes → Bytes → Bytes) (randSalt : Bytes) (mode : Mode)
    (salt : Bytes) (fpOpt : Option Bytes) (fs : Fs) :
    Except (PrepErr × Fs) (Bytes × Bool × Fs) :=
  match keyFileRead fs.keyfile with
  | some key => .ok (key, false, fs)
  | none =>
    match pwDerive (if fpOpt.isSome then false else mode = Mode.upload) salt with
    | none => .error (.passwordFail, fs)
    | some key =>
      match fpOpt with
      | some f =>
        if fpDigest key (f.take SALT_SIZE) ≠ (f.drop SALT_SIZE).take KEY_SIZE
        then .error (.invalidPassword, fs)
        else .ok (key, true, fs)
      | none =>
        .ok (key, true,
          {fs with meta := some (salt.take SALT_SIZE ++
            (randSalt.take SALT_SIZE ++ fpDigest key (randSalt.take SALT_SIZE)))})

/-- Best-effort key-cache persistence (lines 390–402): every failure only
warns; a failed write or close unlinks the partial file. -/
def persistKeyCache (o : KeyCacheIO) (key : Bytes) (fs : Fs) : Fs :=
  match o with
  | .ok => {fs with keyfile := some key}
  | .openFail => fs
  | .writeFail => {fs with keyfile := none}
  | .closeFail => {fs with keyfile := none}

/-- The OpenSSL version mask used at line 256 (`0xff0000000`). -/
def VERSION_MASK : Nat := 0xff0000000

/-- Shallow embedding of `aes256_data_prepare` (lines 246–456). -/
def aes256_data_prepare (E : PrepEnv) (cfgdata : Option Bytes) (mode : Mode)
    (runtimeVer compileVer : Nat) : Except (PrepErr × Fs) PrepSt :=
  if runtimeVer &&& VERSION_MASK ≠ compileVer &&& VERSION_MASK then
    .error (.versionMismatch, fs0 E)
  else
    match custfpStep (fs0 E) cfgdata with
    | .error e => .error e
    | .ok (cfg2, fs1) =>
      match dispatchStep E.pwDerive E.saltInit mode cfg2 fs1 with
      | .error e => .error e
      | .ok (salt, fpOpt, keyOpt) =>
        match keyOpt with
        | some key => .ok (mkPrepSt key fs1)
        | none =>
          match acquireKeyCore E.pwDerive E.fpDigest E.randSalt mode salt fpOpt fs1 with
          | .error e => .error e
          | .ok (key, prompted, fs2) =>
            .ok (mkPrepSt key
              (if prompted then persistKeyCache E.keyCache key fs2 else fs2))

/-- Fresh session context produced at lines 406–455: `calloc` zeroes every
counter and flag, and line 454 (re-)zeroes the 64-byte `ivmac` buffer. -/
def initCtx (kiv kblk kaes : Bytes) : Ctx :=
  { kmacIv := kiv, kmacBlk := kblk, kaes := kaes
    ivmac := List.replicate EVP_MAX_MD_SIZE 0
    inbuf := [], blk := [], data_in := 0, data_out_left := 0
    data_end := false, decrypt_err := false }

/-- The streaming context as `prepare` keys it for master key `key`. -/
def ctxOfKey (key : Bytes) : Ctx :=
  initCtx (key.take (KEY_SIZE / 2)) (key.take (KEY_SIZE / 2))
    (((ctxKeyRegion key).drop KEY_SIZE).take 32)

/-- Upload a whole plaintext `P` in one host call sequence. -/
def encryptStream (p : Prims) (key P : Bytes) : Except Ctx Bytes :=
  (runLoop p Mode.upload (P.length + 2) (ctxOfKey key) P Action.dataEnd).map
    (fun r => r.2.1)

/-- Download a whole wire stream `W` in one host call sequence. -/
def decryptStream (p : Prims) (key W : Bytes) : Except Ctx Bytes :=
  (runLoop p Mode.download (W.length + 2) (ctxOfKey key) W Action.dataEnd).map
    (fun r => r.2.1)

/-! ## Block-level view of the upload path

Derived forms of `uploadBlock` used to state and prove the streaming
lemmas: the framed wire block and the chained `ivmac` state, block by
block. -/

/-- The authenticated region `IV ‖ ciphertext` of one wire block. -/
def frameBody (p : Prims) (kiv kaes ivmac pt : Bytes) : Bytes :=
  (p.h1 kiv (ivmac ++ pt)).take IV_SIZE ++
    cbcEnc p kaes ((p.h1 kiv (ivmac ++ pt)).take IV_SIZE) (pkcs7Pad pt)

/-- One full wire block `IV ‖ ciphertext ‖ tag`. -/
def frameOf (p : Prims) (kiv kblk kaes ivmac pt : Bytes) : Bytes :=
  frameBody p kiv kaes ivmac pt ++
    (p.h512 kblk (frameBody p kiv kaes ivmac pt)).take MAC_SIZE

/-- The `ivmac` state after one block: the SHA-1 HMAC digest overwrites the
first `ivlen` bytes, the tail keeps its previous contents. -/
def nextIvmac (p : Prims) (kiv ivmac pt : Bytes) : Bytes :=
  p.h1 kiv (ivmac ++ pt) ++ ivmac.drop (p.h1 kiv (ivmac ++ pt)).length

/-- Wire blocks produced for a list of plaintext blocks, chaining `ivmac`. -/
def encFrames (p : Prims) (kiv kblk kaes : Bytes) : Bytes → List Bytes → List Bytes
  | _, [] => []
  | ivmac, pt :: pts =>
    frameOf p kiv kblk kaes ivmac pt ::
      encFrames p kiv kblk kaes (nextIvmac p kiv ivmac pt) pts

/-- Plaintext cut into `FILTER_BLOCK_SIZE` chunks, as the upload staging
buffer accumulates it. -/
def chunksB (m : Bytes) : List Bytes :=
  if h : m = [] then []
  else m.take FILTER_BLOCK_SIZE :: chunksB (m.drop FILTER_BLOCK_SIZE)
termination_by m.length
decreasing_by
  simpa using Nat.sub_lt (List.length_pos.mpr h) (by norm_num [FILTER_BLOCK_SIZE])

/-! ## Basic lemmas: XOR, tag comparison, padding -/

lemma or_eq_zero_iff (a b : Nat) : a ||| b = 0 ↔ a = 0 ∧ b = 0 := by
  constructor
  · intro h
    constructor <;> apply Nat.eq_of_testBit_eq <;> intro i <;>
      · have := congrArg (fun x => x.testBit i) h
        simp [Nat.testBit_or] at this
        simp [this.1, this.2]
  · rintro ⟨rfl, rfl⟩; rfl

lemma xorBytes_length (a b : Bytes) : (xorBytes a b).length = min a.length b.length := by
  simp [xorBytes]

/-- XOR with a fixed mask is an involution, pointwise. -/
lemma xorBytes_cancel (a b : Bytes) (h : b.length ≤ a.length) :
    xorBytes a (xorBytes a b) = b := by
  induction a generalizing b with
  | nil => cases b with
    | nil => rfl
    | cons x xs => simp at h
  | cons x xs ih =>
    cases b with
    | nil => rfl
    | cons y ys =>
      simp only [xorBytes, List.zipWith_cons_cons] at *
      rw [Nat.xor_cancel_left]
      have := ih ys (by simpa using h)
      simpa [xorBytes] using this

lemma foldl_or_eq_zero (l : List Nat) (a : Nat) :
    l.foldl (fun m x => m ||| x) a = 0 ↔ a = 0 ∧ ∀ x ∈ l, x = 0 := by
  induction l generalizing a with
  | nil => simp
  | cons y ys ih =>
    simp only [List.foldl_cons, ih, or_eq_zero_iff, List.mem_cons]
    constructor
    · rintro ⟨⟨ha, hy⟩, hall⟩
      exact ⟨ha, fun x hx => hx.elim (fun h => h ▸ hy) (hall x)⟩
    · rintro ⟨ha, hall⟩
      exact ⟨⟨ha, hall y (Or.inl rfl)⟩, fun x hx => hall x (Or.inr hx)⟩

lemma zipWith_xor_all_zero (a : Bytes) :
    ∀ b : Bytes, a.length = b.length →
      ((∀ z ∈ List.zipWith (fun u v => u ^^^ v) a b, z = 0) ↔ a = b) := by
  induction a with
  | nil =>
    intro b h
    cases b with
    | nil => simp
    | cons y ys => simp at h
  | cons x xs ih =>
    intro b h
    cases b with
    | nil => simp at h
    | cons y ys =>
      simp only [List.zipWith_cons_cons, List.mem_cons, List.cons.injEq]
      constructor
      · intro hall
        refine ⟨Nat.xor_eq_zero.mp (hall _ (Or.inl rfl)),
          (ih ys (by simpa using h)).mp ?_⟩
        exact fun z hz => hall z (Or.inr hz)
      · rintro ⟨rfl, rfl⟩ z hz
        rcases hz with hz | hz
        · subst hz; exact Nat.xor_self x
        · exact (ih xs (by simp)).mpr rfl z hz

/-- The constant-time comparison returns 0 exactly on equal strings of equal
length. -/
lemma hmac_compare_eq_zero (a b : Bytes) (h : a.length = b.length) :
    hmac_compare a b = 0 ↔ a = b := by
  rw [hmac_compare, foldl_or_eq_zero]
  simp only [true_and]
  exact zipWith_xor_all_zero a b h

lemma hmac_compare_self (a : Bytes) : hmac_compare a a = 0 :=
  (hmac_compare_eq_zero a a rfl).mpr rfl

lemma pkcs7Pad_length (m : Bytes) :
    (pkcs7Pad m).length = m.length + (AES_BLOCK_SIZE - m.length % AES_BLOCK_SIZE) := by
  simp [pkcs7Pad]

lemma pkcs7Pad_length_dvd (m : Bytes) : AES_BLOCK_SIZE ∣ (pkcs7Pad m).length := by
  rw [pkcs7Pad_length]
  have h : m.length % AES_BLOCK_SIZE < AES_BLOCK_SIZE :=
    Nat.mod_lt _ (by norm_num [AES_BLOCK_SIZE])
  have h2 := Nat.div_add_mod m.length AES_BLOCK_SIZE
  refine ⟨m.length / AES_BLOCK_SIZE + 1, ?_⟩
  simp only [AES_BLOCK_SIZE] at *
  omega

lemma pkcs7Pad_length_pos (m : Bytes) : 0 < (pkcs7Pad m).length := by
  rw [pkcs7Pad_length]
  have h : m.length % AES_BLOCK_SIZE < AES_BLOCK_SIZE :=
    Nat.mod_lt _ (by norm_num [AES_BLOCK_SIZE])
  simp only [AES_BLOCK_SIZE] at *
  omega

lemma getLast?_replicate_succ (n a : Nat) :
    (List.replicate (n + 1) a).getLast? = some a := by
  rw [List.getLast?_eq_getLast _ (by simp), List.getLast_replicate]

/-- The strict padding check accepts exactly what `pkcs7Pad` produced. -/
lemma pkcs7Unpad_pad (m : Bytes) : pkcs7Unpad (pkcs7Pad m) = some m := by
  have hq : AES_BLOCK_SIZE - m.length % AES_BLOCK_SIZE =
      (AES_BLOCK_SIZE - m.length % AES_BLOCK_SIZE - 1) + 1 := by
    have : m.length % AES_BLOCK_SIZE < AES_BLOCK_SIZE :=
      Nat.mod_lt _ (by norm_num [AES_BLOCK_SIZE])
    omega
  set q := AES_BLOCK_SIZE - m.length % AES_BLOCK_SIZE with hqdef
  have hlast : (pkcs7Pad m).getLast? = some q := by
    rw [pkcs7Pad, ← hqdef, List.getLast?_append, hq, getLast?_replicate_succ]
    rfl
  have hlen : (pkcs7Pad m).length = m.length + q := by
    simp [pkcs7Pad, ← hqdef]
  have hcond : 1 ≤ q ∧ q ≤ AES_BLOCK_SIZE ∧ q ≤ (pkcs7Pad m).length ∧
      (∀ x ∈ (pkcs7Pad m).drop ((pkcs7Pad m).length - q), x = q) := by
    refine ⟨by omega, by omega, by omega, ?_⟩
    intro x hx
    rw [hlen, Nat.add_sub_cancel, pkcs7Pad, ← hqdef,
      List.drop_left' rfl] at hx
    exact List.eq_of_mem_replicate hx
  simp only [pkcs7Unpad, hlast, if_pos hcond]
  rw [hlen, Nat.add_sub_cancel, pkcs7Pad, ← hqdef, List.take_left' rfl]

/-! ## CBC lemmas -/

lemma cbcEnc_length (p : Prims) (henc : GoodEnc p) (k : Bytes) :
    ∀ n (m iv : Bytes), m.length = n → iv.length = AES_BLOCK_SIZE →
      AES_BLOCK_SIZE ∣ m.length → (cbcEnc p k iv m).length = m.length := by
  intro n
  induction n using Nat.strong_induction_on with
  | _ n ih =>
    intro m iv hn hiv hdvd
    rw [cbcEnc]
    by_cases hm : m = []
    · simp [hm]
    · rw [dif_neg hm]
      have hpos : 0 < m.length := List.length_pos.mpr hm
      have h16 : AES_BLOCK_SIZE ≤ m.length := Nat.le_of_dvd hpos hdvd
      have hb : (m.take AES_BLOCK_SIZE).length = AES_BLOCK_SIZE := by
        rw [List.length_take]; omega
      have hxb : (xorBytes iv (m.take AES_BLOCK_SIZE)).length = AES_BLOCK_SIZE := by
        rw [xorBytes_length, hiv, hb]; simp
      have hc : (p.encB k (xorBytes iv (m.take AES_BLOCK_SIZE))).length
          = AES_BLOCK_SIZE := henc _ _ hxb
      rw [List.length_append, hc,
        ih (m.length - AES_BLOCK_SIZE)
          (by simp only [AES_BLOCK_SIZE] at *; omega)
          (m.drop AES_BLOCK_SIZE) _ (by rw [List.length_drop]) hc
          (by rw [List.length_drop]; exact Nat.dvd_sub' hdvd dvd_rfl),
        List.length_drop]
      omega

/-- CBC decryption inverts CBC encryption for any inverse block-cipher
pair. -/
lemma cbcDec_cbcEnc (p : Prims) (henc : GoodEnc p) (hdec : GoodDec p) (k : Bytes) :
    ∀ n (m iv : Bytes), m.length = n → iv.length = AES_BLOCK_SIZE →
      AES_BLOCK_SIZE ∣ m.length → cbcDec p k iv (cbcEnc p k iv m) = m := by
  intro n
  induction n using Nat.strong_induction_on with
  | _ n ih =>
    intro m iv hn hiv hdvd
    rw [cbcEnc]
    by_cases hm : m = []
    · simp [hm, cbcDec]
    · rw [dif_neg hm]
      have hpos : 0 < m.length := List.length_pos.mpr hm
      have h16 : AES_BLOCK_SIZE ≤ m.length := Nat.le_of_dvd hpos hdvd
      have hb : (m.take AES_BLOCK_SIZE).length = AES_BLOCK_SIZE := by
        rw [List.length_take]; omega
      have hxb : (xorBytes iv (m.take AES_BLOCK_SIZE)).length = AES_BLOCK_SIZE := by
        rw [xorBytes_length, hiv, hb]; simp
      have hc : (p.encB k (xorBytes iv (m.take AES_BLOCK_SIZE))).length
          = AES_BLOCK_SIZE := henc _ _ hxb
      rw [cbcDec, dif_neg (by
        intro hnil
        have := congrArg List.length hnil
        rw [List.length_append, hc] at this
        simp [AES_BLOCK_SIZE] at this)]
      rw [List.take_left' hc, List.drop_left' hc, hdec _ _ hxb,
        xorBytes_cancel iv _ (by rw [hiv, hb]),
        ih (m.length - AES_BLOCK_SIZE)
          (by simp only [AES_BLOCK_SIZE] at *; omega)
          (m.drop AES_BLOCK_SIZE) _ (by rw [List.length_drop]) hc
          (by rw [List.length_drop]; exact Nat.dvd_sub' hdvd dvd_rfl),
        List.take_append_drop]

/-! ## Upload/download block lemmas -/

lemma uploadBlock_eq (p : Prims) (hp1 : GoodH1 p) (hp5 : GoodH512 p)
    (kiv kblk kaes ivmac pt : Bytes) :
    uploadBlock p kiv kblk kaes ivmac pt
      = .ok (frameOf p kiv kblk kaes ivmac pt, nextIvmac p kiv ivmac pt) := by
  rw [uploadBlock]
  rw [if_neg (by rw [hp1]; norm_num [IV_SIZE])]
  rw [if_neg (by rw [hp5]; norm_num [MAC_SIZE])]
  rfl

lemma ivOf_length (p : Prims) (hp1 : GoodH1 p) (kiv ivmac pt : Bytes) :
    ((p.h1 kiv (ivmac ++ pt)).take IV_SIZE).length = IV_SIZE := by
  rw [List.length_take, hp1]; norm_num [IV_SIZE]

lemma frameBody_length (p : Prims) (hp1 : GoodH1 p) (henc : GoodEnc p)
    (kiv kaes ivmac pt : Bytes) :
    (frameBody p kiv kaes ivmac pt).length = IV_SIZE + (pkcs7Pad pt).length := by
  rw [frameBody, List.length_append, ivOf_length p hp1,
    cbcEnc_length p henc kaes (pkcs7Pad pt).length _ _ rfl
      (by rw [ivOf_length p hp1]; rfl) (pkcs7Pad_length_dvd pt)]

lemma frameOf_length (p : Prims) (hp1 : GoodH1 p) (hp5 : GoodH512 p)
    (henc : GoodEnc p) (kiv kblk kaes ivmac pt : Bytes) :
    (frameOf p kiv kblk kaes ivmac pt).length
      = IV_SIZE + (pkcs7Pad pt).length + MAC_SIZE := by
  rw [frameOf, List.length_append, frameBody_length p hp1 henc,
    List.length_take, hp5]
  norm_num [MAC_SIZE]

lemma pkcs7Pad_length_le (pt : Bytes) (hpt : pt.length ≤ FILTER_BLOCK_SIZE) :
    (pkcs7Pad pt).length ≤ FILTER_BLOCK_SIZE + AES_BLOCK_SIZE := by
  rw [pkcs7Pad_length]
  have : pt.length % AES_BLOCK_SIZE < AES_BLOCK_SIZE :=
    Nat.mod_lt _ (by norm_num [AES_BLOCK_SIZE])
  omega

lemma frameOf_length_le (p : Prims) (hp1 : GoodH1 p) (hp5 : GoodH512 p)
    (henc : GoodEnc p) (kiv kblk kaes ivmac pt : Bytes)
    (hpt : pt.length ≤ FILTER_BLOCK_SIZE) :
    (frameOf p kiv kblk kaes ivmac pt).length ≤ STAGING_SIZE := by
  rw [frameOf_length p hp1 hp5 henc]
  have := pkcs7Pad_length_le pt hpt
  simp only [STAGING_SIZE, IV_SIZE, MAC_SIZE, FILTER_BLOCK_SIZE, AES_BLOCK_SIZE] at *
  omega

lemma frameOf_length_full (p : Prims) (hp1 : GoodH1 p) (hp5 : GoodH512 p)
    (henc : GoodEnc p) (kiv kblk kaes ivmac pt : Bytes)
    (hpt : pt.length = FILTER_BLOCK_SIZE) :
    (frameOf p kiv kblk kaes ivmac pt).length = STAGING_SIZE := by
  rw [frameOf_length p hp1 hp5 henc, pkcs7Pad_length, hpt]
  rfl

lemma frameOf_ne_nil (p : Prims) (hp1 : GoodH1 p) (hp5 : GoodH512 p)
    (henc : GoodEnc p) (kiv kblk kaes ivmac pt : Bytes) :
    frameOf p kiv kblk kaes ivmac pt ≠ [] := by
  intro hnil
  have := congrArg List.length hnil
  rw [frameOf_length p hp1 hp5 henc] at this
  have := pkcs7Pad_length_pos pt
  simp only [IV_SIZE, MAC_SIZE, List.length_nil] at *
  omega

/-- Core authentication/decryption round trip for a single wire block: the
download path accepts exactly the frame the upload path produced and
recovers the plaintext. -/
lemma downloadBlock_frameOf (p : Prims) (hp1 : GoodH1 p) (hp5 : GoodH512 p)
    (henc : GoodEnc p) (hdec : GoodDec p) (kiv kblk kaes ivmac pt : Bytes) :
    downloadBlock p kblk kaes (frameOf p kiv kblk kaes ivmac pt) = .ok pt := by
  have hbl := frameBody_length p hp1 henc kiv kaes ivmac pt
  have htag : ((p.h512 kblk (frameBody p kiv kaes ivmac pt)).take MAC_SIZE).length
      = MAC_SIZE := by
    rw [List.length_take, hp5]; norm_num [MAC_SIZE]
  have hlen : (frameOf p kiv kblk kaes ivmac pt).length
      = (frameBody p kiv kaes ivmac pt).length + MAC_SIZE := by
    rw [frameOf, List.length_append, htag]
  have hsub : (frameOf p kiv kblk kaes ivmac pt).length - MAC_SIZE
      = (frameBody p kiv kaes ivmac pt).length := by omega
  have hbody : (frameOf p kiv kblk kaes ivmac pt).take
      ((frameOf p kiv kblk kaes ivmac pt).length - MAC_SIZE)
      = frameBody p kiv kaes ivmac pt := by
    rw [hsub, frameOf, List.take_left]
  have htagRecv : (frameOf p kiv kblk kaes ivmac pt).drop
      ((frameOf p kiv kblk kaes ivmac pt).length - MAC_SIZE)
      = (p.h512 kblk (frameBody p kiv kaes ivmac pt)).take MAC_SIZE := by
    rw [hsub, frameOf, List.drop_left]
  rw [downloadBlock]
  rw [if_neg (by
    rw [hlen, hbl]
    have := pkcs7Pad_length_pos pt
    simp only [IV_SIZE, MAC_SIZE, AES_BLOCK_SIZE] at *
    omega)]
  rw [if_neg (by rw [hbody, hp5]; norm_num [MAC_SIZE])]
  rw [if_neg (by
    rw [htagRecv, hbody]
    simp [hmac_compare_self])]
  rw [hbody]
  have hiv : (frameBody p kiv kaes ivmac pt).take IV_SIZE
      = (p.h1 kiv (ivmac ++ pt)).take IV_SIZE := by
    rw [frameBody, List.take_left' (ivOf_length p hp1 kiv ivmac pt)]
  have hct : (frameBody p kiv kaes ivmac pt).drop IV_SIZE
      = cbcEnc p kaes ((p.h1 kiv (ivmac ++ pt)).take IV_SIZE) (pkcs7Pad pt) := by
    rw [frameBody, List.drop_left' (ivOf_length p hp1 kiv ivmac pt)]
  rw [hiv, hct,
    cbcDec_cbcEnc p henc hdec kaes (pkcs7Pad pt).length _ _ rfl
      (by rw [ivOf_length p hp1]; rfl) (pkcs7Pad_length_dvd pt),
    pkcs7Unpad_pad]

/-! ## Single-call characterisations of `process` -/

/-- A call that neither drains nor completes a block: no input is left to
ingest and the staging buffer is empty, so `process` asks for more input. -/
lemma process_no_more (p : Prims) (mode : Mode) (ctx : Ctx) (inp : Bytes)
    (outsize : Nat) (act : Action)
    (hin : ctx.inbuf = []) (hleft : ctx.data_out_left = 0)
    (hd : inp.length ≤ ctx.data_in)
    (hact : act = Action.dataEnd ∨ act = Action.rep) :
    aes256_data_process p mode ctx inp outsize act =
      .ok ({ctx with data_end := if act = Action.dataEnd then true else ctx.data_end,
                     data_in := 0}, Action.normal, []) := by
  obtain ⟨k1, k2, k3, iv, ib, bl, di, dol, de, derr⟩ := ctx
  simp only at hin hleft hd
  subst hin hleft
  have hrem : inp.length - di = 0 := by omega
  cases mode <;> rcases hact with rfl | rfl <;>
  · simp only [aes256_data_process, bsizeOf]
    rw [if_neg (by simp)]
    simp [hrem, STAGING_SIZE, FILTER_BLOCK_SIZE, IV_SIZE, MAC_SIZE, AES_BLOCK_SIZE]

/-- A `Repeat` call with no staged output and the end flag already set takes
exactly the same path as a `DataEnd` call. -/
lemma process_rep_eq_dataEnd (p : Prims) (mode : Mode) (ctx : Ctx) (inp : Bytes)
    (outsize : Nat) (hleft : ctx.data_out_left = 0) (hend : ctx.data_end = true) :
    aes256_data_process p mode ctx inp outsize Action.rep
      = aes256_data_process p mode ctx inp outsize Action.dataEnd := by
  obtain ⟨k1, k2, k3, iv, ib, bl, di, dol, de, derr⟩ := ctx
  simp only at hleft hend
  subst hleft hend
  simp [aes256_data_process]

/-- One upload call with an empty staging buffer and input still pending:
`process` ingests the next (at most `FILTER_BLOCK_SIZE`-byte) chunk,
encrypts it, and emits the whole wire block at once (the caller buffer is
`OUTBUF` bytes). -/
lemma process_upload_step (p : Prims) (hp1 : GoodH1 p) (hp5 : GoodH512 p)
    (henc : GoodEnc p) (ctx : Ctx) (inp : Bytes)
    (hin : ctx.inbuf = []) (hblk : ctx.blk = []) (hleft : ctx.data_out_left = 0)
    (hd : ctx.data_in < inp.length) :
    aes256_data_process p Mode.upload ctx inp OUTBUF Action.dataEnd =
      .ok ({ctx with
              ivmac := nextIvmac p ctx.kmacIv ctx.ivmac
                ((inp.drop ctx.data_in).take FILTER_BLOCK_SIZE),
              inbuf := [], blk := [], data_end := true,
              data_in :=
                if ctx.data_in + ((inp.drop ctx.data_in).take FILTER_BLOCK_SIZE).length
                    = inp.length then 0
                else ctx.data_in + ((inp.drop ctx.data_in).take FILTER_BLOCK_SIZE).length},
            (if ctx.data_in + ((inp.drop ctx.data_in).take FILTER_BLOCK_SIZE).length
                = inp.length then Action.dataEnd else Action.rep),
            frameOf p ctx.kmacIv ctx.kmacBlk ctx.kaes ctx.ivmac
              ((inp.drop ctx.data_in).take FILTER_BLOCK_SIZE)) := by
  obtain ⟨k1, k2, k3, iv, ib, bl, di, dol, de, derr⟩ := ctx
  simp only at hin hblk hleft hd ⊢
  subst hin hblk hleft
  have hptlen : ((inp.drop di).take FILTER_BLOCK_SIZE).length
      = min FILTER_BLOCK_SIZE (inp.length - di) := by
    rw [List.length_take, List.length_drop]
  have hptpos : ((inp.drop di).take FILTER_BLOCK_SIZE).length ≠ 0 := by
    rw [hptlen]
    simp only [FILTER_BLOCK_SIZE]
    omega
  have hframele := frameOf_length_le p hp1 hp5 henc k1 k2 k3 iv
    ((inp.drop di).take FILTER_BLOCK_SIZE)
    (by rw [hptlen]; exact Nat.min_le_left _ _)
  have hout : ¬ (OUTBUF <
      (frameOf p k1 k2 k3 iv ((inp.drop di).take FILTER_BLOCK_SIZE)).length) := by
    rw [OUTBUF]; omega
  by_cases hbig : FILTER_BLOCK_SIZE ≤ inp.length - di
  · -- a full block is available
    have hpt16 : ((inp.drop di).take FILTER_BLOCK_SIZE).length = FILTER_BLOCK_SIZE := by
      rw [hptlen]; omega
    simp only [aes256_data_process, bsizeOf]
    rw [if_neg (by simp), if_pos trivial]
    simp only [List.length_nil, Nat.sub_zero, List.nil_append]
    rw [if_pos hbig]
    split
    · rw [uploadBlock_eq p hp1 hp5]
      simp only [emitBlock]
      rw [if_neg hout]
      rw [hpt16]
      by_cases hfin : di + FILTER_BLOCK_SIZE = inp.length <;> simp [hfin]
    · rename_i htr
      exact absurd (Or.inl hpt16) htr
  · -- final partial block
    have hbytes : (inp.drop di).take (inp.length - di) =
        (inp.drop di).take FILTER_BLOCK_SIZE := by
      rw [List.take_of_length_le (by rw [List.length_drop]),
        List.take_of_length_le (by rw [List.length_drop]; omega)]
    have hlast : di + ((inp.drop di).take FILTER_BLOCK_SIZE).length = inp.length := by
      rw [hptlen]; omega
    simp only [aes256_data_process, bsizeOf]
    rw [if_neg (by simp), if_pos trivial]
    simp only [List.length_nil, Nat.sub_zero, List.nil_append]
    rw [if_neg hbig, hbytes]
    split
    · rw [uploadBlock_eq p hp1 hp5]
      simp only [emitBlock]
      rw [if_neg hout]
      simp [hlast]
      all_goals omega
    · rename_i htr
      exact absurd (Or.inr ⟨hptpos, Or.inl trivial⟩) htr

/-- One download call with an empty staging buffer: `process` stages exactly
the next wire frame (frames before the last fill the staging buffer
completely), authenticates and decrypts it, and emits the plaintext. -/
lemma process_download_step (p : Prims) (ctx : Ctx) (inp : Bytes) (w t pt : Bytes)
    (hin : ctx.inbuf = []) (hblk : ctx.blk = []) (hleft : ctx.data_out_left = 0)
    (hdrop : inp.drop ctx.data_in = w ++ t)
    (hok : downloadBlock p ctx.kmacBlk ctx.kaes w = .ok pt)
    (hwfull : w.length = STAGING_SIZE ∨ t = [])
    (hw2 : w ≠ []) (hwle : w.length ≤ STAGING_SIZE) (hpt : pt.length ≤ OUTBUF) :
    aes256_data_process p Mode.download ctx inp OUTBUF Action.dataEnd =
      .ok ({ctx with
              inbuf := [], blk := [], data_end := true,
              data_in := (if ctx.data_in + w.length = inp.length then 0
                          else ctx.data_in + w.length)},
           (if ctx.data_in + w.length = inp.length then Action.dataEnd else Action.rep),
           pt) := by
  obtain ⟨k1, k2, k3, iv, ib, bl, di, dol, de, derr⟩ := ctx
  simp only at hin hblk hleft hdrop hok ⊢
  subst hin hblk hleft
  have hdle : di ≤ inp.length := by
    by_contra hlt
    push_neg at hlt
    rw [List.drop_eq_nil_of_le (le_of_lt hlt)] at hdrop
    exact hw2 (List.append_eq_nil.mp hdrop.symm).1
  have hrem : inp.length - di = w.length + t.length := by
    have h := congrArg List.length hdrop
    rw [List.length_drop, List.length_append] at h
    exact h
  have hwpos : w.length ≠ 0 := fun h => hw2 (List.length_eq_zero.mp h)
  have houtpt : ¬ (OUTBUF < pt.length) := by omega
  by_cases hfull : STAGING_SIZE ≤ inp.length - di
  · have hw16448 : w.length = STAGING_SIZE := by
      rcases hwfull with h | h
      · exact h
      · subst h
        simp only [List.length_nil, Nat.add_zero] at hrem
        omega
    have htake : (inp.drop di).take STAGING_SIZE = w := by
      rw [hdrop, ← hw16448, List.take_left]
    simp only [aes256_data_process, bsizeOf]
    rw [if_neg (by simp), if_pos trivial]
    simp only [List.length_nil, Nat.sub_zero, List.nil_append]
    rw [if_pos hfull, htake]
    split
    · rw [hok]
      simp only [emitBlock]
      rw [if_neg houtpt, hw16448]
      by_cases hfin : di + STAGING_SIZE = inp.length <;> simp [hfin]
    · rename_i htr
      exact absurd (Or.inl hw16448) htr
  · have ht : t = [] := by
      rcases hwfull with h | h
      · omega
      · exact h
    subst ht
    have hwrem : inp.length - di = w.length := by
      simpa using hrem
    have htake : (inp.drop di).take (inp.length - di) = w := by
      rw [hdrop, List.append_nil, hwrem, List.take_length]
    simp only [aes256_data_process, bsizeOf]
    rw [if_neg (by simp), if_pos trivial]
    simp only [List.length_nil, Nat.sub_zero, List.nil_append]
    rw [if_neg hfull, htake]
    split
    · rw [hok]
      simp only [emitBlock]
      rw [if_neg houtpt, hwrem]
      by_cases hfin : di + w.length = inp.length <;> simp [hfin]
    · rename_i htr
      exact absurd (Or.inr ⟨hwpos, Or.inl trivial⟩) htr

/-! ## Chunking lemmas -/

lemma chunksB_nil : chunksB [] = [] := by
  rw [chunksB]
  simp

lemma chunksB_cons (m : Bytes) (h : m ≠ []) :
    chunksB m = m.take FILTER_BLOCK_SIZE :: chunksB (m.drop FILTER_BLOCK_SIZE) := by
  rw [chunksB, dif_neg h]

lemma chunksB_eq_nil_iff (m : Bytes) : chunksB m = [] ↔ m = [] := by
  constructor
  · intro h
    by_contra hm
    rw [chunksB_cons m hm] at h
    exact List.cons_ne_nil _ _ h
  · intro h
    rw [h, chunksB_nil]

lemma chunksB_flatten : ∀ n (m : Bytes), m.length = n → (chunksB m).flatten = m := by
  intro n
  induction n using Nat.strong_induction_on with
  | _ n ih =>
    intro m hn
    by_cases hm : m = []
    · rw [hm, chunksB_nil]; rfl
    · rw [chunksB_cons m hm, List.flatten_cons,
        ih (m.length - FILTER_BLOCK_SIZE)
          (by
            have : 0 < m.length := List.length_pos.mpr hm
            simp only [FILTER_BLOCK_SIZE] at *
            omega)
          (m.drop FILTER_BLOCK_SIZE) (by rw [List.length_drop]),
        List.take_append_drop]

lemma chunksB_length_le : ∀ n (m : Bytes), m.length = n → (chunksB m).length ≤ m.length := by
  intro n
  induction n using Nat.strong_induction_on with
  | _ n ih =>
    intro m hn
    by_cases hm : m = []
    · rw [hm, chunksB_nil]; simp
    · rw [chunksB_cons m hm, List.length_cons]
      have hpos : 0 < m.length := List.length_pos.mpr hm
      have := ih (m.length - FILTER_BLOCK_SIZE)
        (by simp only [FILTER_BLOCK_SIZE] at *; omega)
        (m.drop FILTER_BLOCK_SIZE) (by rw [List.length_drop])
      rw [List.length_drop] at this
      simp only [FILTER_BLOCK_SIZE] at *
      omega

/-! ## The upload loop -/

/-- Driving the upload direction over input `inp` from cursor
`ctx.data_in` produces exactly the concatenated wire frames of the
remaining plaintext chunks. -/
lemma runLoop_upload (p : Prims) (hp1 : GoodH1 p) (hp5 : GoodH512 p)
    (henc : GoodEnc p) :
    ∀ (pts : List Bytes) (fuel : Nat) (ctx : Ctx) (inp : Bytes) (act : Action),
      chunksB (inp.drop ctx.data_in) = pts →
      ctx.inbuf = [] → ctx.blk = [] → ctx.data_out_left = 0 →
      (act = Action.dataEnd ∨ (act = Action.rep ∧ ctx.data_end = true)) →
      pts.length < fuel →
      ∃ ctxF actF,
        runLoop p Mode.upload fuel ctx inp act
          = .ok (ctxF,
              (encFrames p ctx.kmacIv ctx.kmacBlk ctx.kaes ctx.ivmac pts).flatten,
              actF) := by
  intro pts
  induction pts with
  | nil =>
    intro fuel ctx inp act hch hin hblk hleft hact hfuel
    cases fuel with
    | zero => omega
    | succ f =>
      have hnil : inp.drop ctx.data_in = [] := (chunksB_eq_nil_iff _).mp hch
      have hd : inp.length ≤ ctx.data_in := by
        have := congrArg List.length hnil
        rw [List.length_drop] at this
        simp only [List.length_nil] at this
        omega
      have hstep := process_no_more p Mode.upload ctx inp OUTBUF act hin hleft hd
        (by rcases hact with h | ⟨h, _⟩ <;> simp [h])
      refine ⟨{ctx with
                data_end := if act = Action.dataEnd then true else ctx.data_end,
                data_in := 0}, Action.normal, ?_⟩
      simp only [runLoop, hstep]
      simp [encFrames]
  | cons pt rest ih =>
    intro fuel ctx inp act hch hin hblk hleft hact hfuel
    cases fuel with
    | zero => simp at hfuel
    | succ f =>
      have hne : inp.drop ctx.data_in ≠ [] := by
        intro h
        rw [(chunksB_eq_nil_iff _).mpr h] at hch
        exact List.cons_ne_nil _ _ hch.symm
      have hd : ctx.data_in < inp.length := by
        by_contra h
        push_neg at h
        exact hne (List.drop_eq_nil_of_le h)
      rw [chunksB_cons _ hne] at hch
      injection hch with hpt hrest
      subst hpt
      have hstep0 : aes256_data_process p Mode.upload ctx inp OUTBUF act
          = aes256_data_process p Mode.upload ctx inp OUTBUF Action.dataEnd := by
        rcases hact with rfl | ⟨rfl, hend⟩
        · rfl
        · exact process_rep_eq_dataEnd p Mode.upload ctx inp OUTBUF hleft hend
      have hstep := process_upload_step p hp1 hp5 henc ctx inp hin hblk hleft hd
      have hptlen : ((inp.drop ctx.data_in).take FILTER_BLOCK_SIZE).length
          = min FILTER_BLOCK_SIZE (inp.length - ctx.data_in) := by
        rw [List.length_take, List.length_drop]
      by_cases hfin : ctx.data_in +
          ((inp.drop ctx.data_in).take FILTER_BLOCK_SIZE).length = inp.length
      · -- this was the last chunk
        have hrest_nil : rest = [] := by
          rw [← hrest, chunksB_eq_nil_iff]
          apply List.eq_nil_of_length_eq_zero
          rw [List.length_drop, List.length_drop]
          rw [hptlen] at hfin
          simp only [FILTER_BLOCK_SIZE] at *
          omega
        subst hrest_nil
        refine ⟨{ctx with
            ivmac := nextIvmac p ctx.kmacIv ctx.ivmac
              ((inp.drop ctx.data_in).take FILTER_BLOCK_SIZE),
            inbuf := [], blk := [], data_end := true, data_in := 0},
          Action.dataEnd, ?_⟩
        simp only [runLoop, hstep0, hstep, if_pos hfin]
        rw [if_neg (by simp)]
        simp [encFrames]
      · have hmin : ((inp.drop ctx.data_in).take FILTER_BLOCK_SIZE).length
            = FILTER_BLOCK_SIZE := by
          rw [hptlen]
          simp only [FILTER_BLOCK_SIZE] at *
          omega
        obtain ⟨ctxF, actF, hIH⟩ := ih f
          {ctx with
            ivmac := nextIvmac p ctx.kmacIv ctx.ivmac
              ((inp.drop ctx.data_in).take FILTER_BLOCK_SIZE),
            inbuf := [], blk := [], data_end := true,
            data_in := ctx.data_in +
              ((inp.drop ctx.data_in).take FILTER_BLOCK_SIZE).length}
          inp Action.rep
          (by
            simp only [hmin]
            rw [List.drop_drop] at hrest
            exact hrest)
          rfl rfl hleft (Or.inr ⟨rfl, rfl⟩) (by simpa using hfuel)
        refine ⟨ctxF, actF, ?_⟩
        simp only [runLoop, hstep0, hstep, if_neg hfin]
        rw [if_pos trivial]
        rw [hIH]
        simp [encFrames]

/-! ## The download loop -/

/-- Shape of `chunksB P` for nonempty `P`: every chunk except the last is a
full `FILTER_BLOCK_SIZE` block, and the last is nonempty. -/
inductive Shape : List Bytes → Prop where
  | last (pt : Bytes) (h1 : 1 ≤ pt.length) (h2 : pt.length ≤ FILTER_BLOCK_SIZE) :
      Shape [pt]
  | cons (pt : Bytes) (h : pt.length = FILTER_BLOCK_SIZE) {rest : List Bytes}
      (hr : Shape rest) : Shape (pt :: rest)

lemma shape_chunksB : ∀ n (m : Bytes), m.length = n → m ≠ [] → Shape (chunksB m) := by
  intro n
  induction n using Nat.strong_induction_on with
  | _ n ih =>
    intro m hn hm
    rw [chunksB_cons m hm]
    by_cases hsmall : m.length ≤ FILTER_BLOCK_SIZE
    · have : m.drop FILTER_BLOCK_SIZE = [] := by
        apply List.eq_nil_of_length_eq_zero
        rw [List.length_drop]
        omega
      rw [this, chunksB_nil]
      exact Shape.last _ (by
          rw [List.length_take]
          have := List.length_pos.mpr hm
          omega)
        (by rw [List.length_take]; omega)
    · push_neg at hsmall
      refine Shape.cons _ (by rw [List.length_take]; omega) ?_
      refine ih (m.length - FILTER_BLOCK_SIZE)
        (by simp only [FILTER_BLOCK_SIZE] at *; omega)
        (m.drop FILTER_BLOCK_SIZE) (by rw [List.length_drop]) ?_
      intro hnil
      have := congrArg List.length hnil
      rw [List.length_drop] at this
      simp only [List.length_nil] at this
      omega

/-- Frames relation: `ws` is a list of wire frames that the download path
decodes one-to-one into the plaintext blocks `pts`; every frame but the
last fills the staging buffer exactly. -/
inductive Frames (p : Prims) (kblk kaes : Bytes) : List Bytes → List Bytes → Prop where
  | last {w pt : Bytes} (hok : downloadBlock p kblk kaes w = .ok pt)
      (hne : w ≠ []) (hle : w.length ≤ STAGING_SIZE) (hpt : pt.length ≤ OUTBUF) :
      Frames p kblk kaes [w] [pt]
  | cons {w pt : Bytes} {ws pts : List Bytes}
      (hok : downloadBlock p kblk kaes w = .ok pt)
      (hfull : w.length = STAGING_SIZE) (hpt : pt.length ≤ OUTBUF)
      (htail : Frames p kblk kaes ws pts) :
      Frames p kblk kaes (w :: ws) (pt :: pts)

lemma Frames.flatten_ne_nil {p : Prims} {kblk kaes : Bytes} {ws pts : List Bytes}
    (h : Frames p kblk kaes ws pts) : ws.flatten ≠ [] := by
  cases h with
  | last hok hne hle hpt =>
    simpa using hne
  | cons hok hfull hpt htail =>
    rename_i w pt ws' pts'
    intro hnil
    simp only [List.flatten_cons] at hnil
    have : w = [] := (List.append_eq_nil.mp hnil).1
    rw [this] at hfull
    norm_num [STAGING_SIZE, IV_SIZE, FILTER_BLOCK_SIZE, AES_BLOCK_SIZE, MAC_SIZE] at hfull

lemma Frames.length_le_flatten {p : Prims} {kblk kaes : Bytes} :
    ∀ {ws pts : List Bytes}, Frames p kblk kaes ws pts →
      ws.length ≤ ws.flatten.length := by
  intro ws pts h
  induction h with
  | last hok hne hle hpt =>
    rename_i w pt
    have := List.length_pos.mpr hne
    simp
    omega
  | cons hok hfull hpt htail ihtail =>
    rename_i w pt ws' pts'
    simp only [List.length_cons, List.flatten_cons, List.length_append]
    have : 0 < w.length := by
      rw [hfull]
      norm_num [STAGING_SIZE, IV_SIZE, FILTER_BLOCK_SIZE, AES_BLOCK_SIZE, MAC_SIZE]
    omega

/-- Driving the download direction over a wire stream that consists of
well-formed frames recovers the concatenated plaintext blocks. -/
lemma runLoop_download (p : Prims) (kblk kaes : Bytes) :
    ∀ (ws pts : List Bytes), Frames p kblk kaes ws pts →
    ∀ (fuel : Nat) (ctx : Ctx) (inp : Bytes) (act : Action),
      inp.drop ctx.data_in = ws.flatten →
      ctx.kmacBlk = kblk → ctx.kaes = kaes →
      ctx.inbuf = [] → ctx.blk = [] → ctx.data_out_left = 0 →
      (act = Action.dataEnd ∨ (act = Action.rep ∧ ctx.data_end = true)) →
      ws.length < fuel →
      ∃ ctxF actF,
        runLoop p Mode.download fuel ctx inp act = .ok (ctxF, pts.flatten, actF) := by
  intro ws pts hF
  induction hF with
  | last hok hne hle hpt =>
    rename_i w pt
    intro fuel ctx inp act hdrop hkb hka hin hblk hleft hact hfuel
    cases fuel with
    | zero => omega
    | succ f =>
      have hdlt : ctx.data_in < inp.length := by
        by_contra h
        push_neg at h
        rw [List.drop_eq_nil_of_le h] at hdrop
        exact Frames.flatten_ne_nil (Frames.last hok hne hle hpt) hdrop.symm
      have hlenw : inp.length - ctx.data_in = w.length := by
        have h := congrArg List.length hdrop
        rw [List.length_drop] at h
        simpa using h
      have hfin : ctx.data_in + w.length = inp.length := by omega
      have hstep0 : aes256_data_process p Mode.download ctx inp OUTBUF act
          = aes256_data_process p Mode.download ctx inp OUTBUF Action.dataEnd := by
        rcases hact with rfl | ⟨rfl, hend⟩
        · rfl
        · exact process_rep_eq_dataEnd p Mode.download ctx inp OUTBUF hleft hend
      have hstep := process_download_step p ctx inp w [] pt hin hblk hleft
        (by simpa using hdrop) (by rw [hkb, hka]; exact hok) (Or.inr rfl) hne hle hpt
      refine ⟨{ctx with inbuf := [], blk := [], data_end := true, data_in := 0},
        Action.dataEnd, ?_⟩
      simp only [runLoop, hstep0, hstep, if_pos hfin]
      rw [if_neg (by simp)]
      simp
  | cons hok hfull hpt htail ihtail =>
    rename_i w pt ws' pts'
    intro fuel ctx inp act hdrop hkb hka hin hblk hleft hact hfuel
    cases fuel with
    | zero => simp at hfuel
    | succ f =>
      rw [List.flatten_cons] at hdrop
      have hdlt : ctx.data_in ≤ inp.length := by
        by_contra h
        push_neg at h
        rw [List.drop_eq_nil_of_le (le_of_lt h)] at hdrop
        have := (List.append_eq_nil.mp hdrop.symm).1
        rw [this] at hfull
        norm_num [STAGING_SIZE, IV_SIZE, FILTER_BLOCK_SIZE, AES_BLOCK_SIZE, MAC_SIZE] at hfull
      have hlenw : inp.length - ctx.data_in = w.length + ws'.flatten.length := by
        have h := congrArg List.length hdrop
        rw [List.length_drop, List.length_append] at h
        exact h
      have htailne : ws'.flatten ≠ [] := Frames.flatten_ne_nil htail
      have htailpos : 0 < ws'.flatten.length := List.length_pos.mpr htailne
      have hnfin : ¬ (ctx.data_in + w.length = inp.length) := by omega
      have hstep0 : aes256_data_process p Mode.download ctx inp OUTBUF act
          = aes256_data_process p Mode.download ctx inp OUTBUF Action.dataEnd := by
        rcases hact with rfl | ⟨rfl, hend⟩
        · rfl
        · exact process_rep_eq_dataEnd p Mode.download ctx inp OUTBUF hleft hend
      have hwne : w ≠ [] := by
        intro h
        rw [h] at hfull
        norm_num [STAGING_SIZE, IV_SIZE, FILTER_BLOCK_SIZE, AES_BLOCK_SIZE, MAC_SIZE] at hfull
      have hstep := process_download_step p ctx inp w ws'.flatten pt hin hblk hleft
        hdrop (by rw [hkb, hka]; exact hok) (Or.inl hfull) hwne (le_of_eq hfull) hpt
      obtain ⟨ctxF, actF, hIH⟩ := ihtail f
        {ctx with
          inbuf := [], blk := [], data_end := true,
          data_in := ctx.data_in + w.length}
        inp Action.rep
        (by
          simp only
          rw [← List.drop_drop, hdrop, List.drop_left])
        hkb hka rfl rfl hleft (Or.inr ⟨rfl, rfl⟩) (by simpa using hfuel)
      refine ⟨ctxF, actF, ?_⟩
      simp only [runLoop, hstep0, hstep, if_neg hnfin]
      rw [if_pos trivial]
      rw [hIH]
      simp

/-- The frames produced by the upload chain are well-formed download
frames, chunk by chunk. -/
lemma frames_encFrames (p : Prims) (hp1 : GoodH1 p) (hp5 : GoodH512 p)
    (henc : GoodEnc p) (hdec : GoodDec p) (kiv kblk kaes : Bytes) :
    ∀ {pts : List Bytes}, Shape pts → ∀ ivmac : Bytes,
      Frames p kblk kaes (encFrames p kiv kblk kaes ivmac pts) pts := by
  intro pts hS
  induction hS with
  | last pt h1 h2 =>
    intro ivmac
    rw [encFrames]
    exact Frames.last (downloadBlock_frameOf p hp1 hp5 henc hdec kiv kblk kaes ivmac pt)
      (frameOf_ne_nil p hp1 hp5 henc kiv kblk kaes ivmac pt)
      (frameOf_length_le p hp1 hp5 henc kiv kblk kaes ivmac pt h2)
      (by rw [OUTBUF]; calc pt.length ≤ FILTER_BLOCK_SIZE := h2
            _ ≤ STAGING_SIZE := by norm_num [FILTER_BLOCK_SIZE, STAGING_SIZE, IV_SIZE, MAC_SIZE, AES_BLOCK_SIZE])
  | cons pt h hr ih =>
    intro ivmac
    rw [encFrames]
    exact Frames.cons (downloadBlock_frameOf p hp1 hp5 henc hdec kiv kblk kaes ivmac pt)
      (frameOf_length_full p hp1 hp5 henc kiv kblk kaes ivmac pt h)
      (by rw [OUTBUF, h]; norm_num [FILTER_BLOCK_SIZE, STAGING_SIZE, IV_SIZE, MAC_SIZE, AES_BLOCK_SIZE])
      (ih _)

/-! ## Toy primitives for concrete witnesses -/

/-- Concrete primitive instantiation used by the witnesses: digests of the
correct lengths and a trivially invertible stand-in block cipher. -/
def toyPrims : Prims :=
  { encB := fun _ b => b.reverse
    decB := fun _ b => b.reverse
    h1 := fun k m => List.replicate 20 ((k.sum + m.sum) % 256)
    h512 := fun k m => List.replicate 64 ((k.sum + 3 * m.sum) % 256) }

lemma toyPrims_h1 : GoodH1 toyPrims := fun _ _ => by simp [toyPrims]

lemma toyPrims_h512 : GoodH512 toyPrims := fun _ _ => by simp [toyPrims]

lemma toyPrims_enc : GoodEnc toyPrims := fun _ b h => by simp [toyPrims, h]

lemma toyPrims_dec : GoodDec toyPrims := fun _ _ _ => by simp [toyPrims]

/-! ## Claim theorems -/

/-- C2: for every key material and plaintext, and for any primitives with
the real digest lengths and an invertible block cipher, downloading the
full wire stream produced by the upload direction of
`aes256_data_process` under the same key recovers the plaintext
exactly. -/
theorem C2_round_trip (p : Prims) (hp1 : GoodH1 p) (hp5 : GoodH512 p)
    (henc : GoodEnc p) (hdec : GoodDec p) (key P : Bytes) :
    ∃ W, encryptStream p key P = Except.ok W ∧
      decryptStream p key W = Except.ok P := by
  by_cases hP : P = []
  · subst hP
    refine ⟨[], ?_, ?_⟩
    · have h0 := process_no_more p Mode.upload (ctxOfKey key) [] OUTBUF Action.dataEnd
        rfl rfl (by simp [ctxOfKey, initCtx]) (Or.inl rfl)
      simp only [encryptStream, runLoop, h0]
      rfl
    · have h0 := process_no_more p Mode.download (ctxOfKey key) [] OUTBUF Action.dataEnd
        rfl rfl (by simp [ctxOfKey, initCtx]) (Or.inl rfl)
      simp only [decryptStream, runLoop, h0]
      rfl
  · obtain ⟨ctxU, actU, hU⟩ := runLoop_upload p hp1 hp5 henc (chunksB P) (P.length + 2)
      (ctxOfKey key) P Action.dataEnd
      (by simp [ctxOfKey, initCtx]) rfl rfl rfl (Or.inl rfl)
      (by have := chunksB_length_le P.length P rfl; omega)
    refine ⟨_, by rw [encryptStream, hU]; rfl, ?_⟩
    have hS : Shape (chunksB P) := shape_chunksB P.length P rfl hP
    have hFrames := frames_encFrames p hp1 hp5 henc hdec
      (ctxOfKey key).kmacIv (ctxOfKey key).kmacBlk (ctxOfKey key).kaes hS
      (ctxOfKey key).ivmac
    obtain ⟨ctxD, actD, hD⟩ := runLoop_download p (ctxOfKey key).kmacBlk
      (ctxOfKey key).kaes _ _ hFrames
      ((encFrames p (ctxOfKey key).kmacIv (ctxOfKey key).kmacBlk (ctxOfKey key).kaes
          (ctxOfKey key).ivmac (chunksB P)).flatten.length + 2)
      (ctxOfKey key)
      ((encFrames p (ctxOfKey key).kmacIv (ctxOfKey key).kmacBlk (ctxOfKey key).kaes
          (ctxOfKey key).ivmac (chunksB P)).flatten)
      Action.dataEnd
      (by simp [ctxOfKey, initCtx]) rfl rfl rfl rfl rfl (Or.inl rfl)
      (by have := Frames.length_le_flatten hFrames; omega)
    rw [decryptStream, hD]
    rw [chunksB_flatten P.length P rfl]
    rfl

/-- Witness for C2 at a concrete key and plaintext. -/
theorem C2_round_trip_witness :
    ∃ W, encryptStream toyPrims (List.range 64) [1, 2, 3] = Except.ok W ∧
      decryptStream toyPrims (List.range 64) W = Except.ok [1, 2, 3] :=
  C2_round_trip toyPrims toyPrims_h1 toyPrims_h512 toyPrims_enc toyPrims_dec
    (List.range 64) [1, 2, 3]

/-- A download call whose input is already fully staged (`inp = []`) reduces
to `downloadBlock` on the staged bytes, with the failure context recorded by
`dlErrCtx`. -/
lemma process_download_stageOnly (p : Prims) (ctx : Ctx) (w : Bytes) (outsize : Nat)
    (hin : ctx.inbuf = w) (hpos : w ≠ []) :
    aes256_data_process p Mode.download ctx [] outsize Action.dataEnd
      = (match downloadBlock p ctx.kmacBlk ctx.kaes w with
         | .error e => .error (dlErrCtx {ctx with data_end := true} e)
         | .ok pt =>
            .ok (emitBlock {ctx with data_end := true, inbuf := []} [] outsize pt)) := by
  obtain ⟨k1, k2, k3, iv, ib, bl, di, dol, de, derr⟩ := ctx
  simp only at hin ⊢
  subst hin
  have hwpos : ib.length ≠ 0 := fun h => hpos (List.length_eq_zero.mp h)
  simp only [aes256_data_process, bsizeOf]
  rw [if_neg (by simp), if_pos trivial]
  simp only [List.drop_nil, List.take_nil, List.append_nil, List.length_nil,
    Nat.zero_sub, Nat.add_zero]
  by_cases hc : STAGING_SIZE - ib.length ≤ 0
  · rw [if_pos hc, Nat.le_zero.mp hc]
    split
    · rfl
    · rename_i htr
      exact absurd (Or.inr ⟨hwpos, Or.inl trivial⟩) htr
  · rw [if_neg hc]
    split
    · rfl
    · rename_i htr
      exact absurd (Or.inr ⟨hwpos, Or.inl trivial⟩) htr

/-- Tag mismatch makes `downloadBlock` fail before decrypting. -/
lemma downloadBlock_tagMismatch (p : Prims) (hp : GoodH512 p) (kblk kaes w : Bytes)
    (hlen : IV_SIZE + MAC_SIZE ≤ w.length)
    (hmis : (p.h512 kblk (w.take (w.length - MAC_SIZE))).take MAC_SIZE
      ≠ w.drop (w.length - MAC_SIZE)) :
    downloadBlock p kblk kaes w = .error DecErr.tagMismatch := by
  rw [downloadBlock]
  rw [if_neg (by omega)]
  rw [if_neg (by rw [hp]; norm_num [MAC_SIZE])]
  rw [if_pos ?hcmp]
  case hcmp =>
    intro h0
    have hlr : (w.drop (w.length - MAC_SIZE)).length
        = ((p.h512 kblk (w.take (w.length - MAC_SIZE))).take MAC_SIZE).length := by
      rw [List.length_drop, List.length_take, hp]
      simp only [IV_SIZE, MAC_SIZE] at *
      omega
    exact hmis (((hmac_compare_eq_zero _ _ hlr).mp h0).symm)

/-- Padding failure makes `downloadBlock` fail after a successful tag
check. -/
lemma downloadBlock_padFail (p : Prims) (hp : GoodH512 p) (kblk kaes w : Bytes)
    (hlen : IV_SIZE + MAC_SIZE ≤ w.length)
    (heq : (p.h512 kblk (w.take (w.length - MAC_SIZE))).take MAC_SIZE
      = w.drop (w.length - MAC_SIZE))
    (hpad : pkcs7Unpad (cbcDec p kaes ((w.take (w.length - MAC_SIZE)).take IV_SIZE)
      ((w.take (w.length - MAC_SIZE)).drop IV_SIZE)) = none) :
    downloadBlock p kblk kaes w = .error DecErr.padFail := by
  rw [downloadBlock]
  rw [if_neg (by omega)]
  rw [if_neg (by rw [hp]; norm_num [MAC_SIZE])]
  rw [if_neg (by
    simp only [ne_eq, not_not]
    rw [heq]
    exact hmac_compare_self _)]
  rw [hpad]

/-- C3: on download, with a staged wire block, `process` recomputes the
HMAC-SHA-512 over `IV ‖ ciphertext`, truncates it to 32 bytes and compares
it with the trailing tag; on mismatch it fails with `decrypt_err` set and
emits no plaintext — and the result does not depend on the block cipher at
all, showing the check happens before any decryption.  If the tag matches
but CBC finalisation (the padding check) fails, `process` also fails with
`decrypt_err` set and no output. -/
theorem C3_download_auth_failure (p : Prims) (hp : GoodH512 p) (ctx : Ctx)
    (w : Bytes) (outsize : Nat) (hin : ctx.inbuf = w)
    (hlen : IV_SIZE + MAC_SIZE ≤ w.length) :
    (((p.h512 ctx.kmacBlk (w.take (w.length - MAC_SIZE))).take MAC_SIZE
        ≠ w.drop (w.length - MAC_SIZE)) →
      aes256_data_process p Mode.download ctx [] outsize Action.dataEnd
        = .error {ctx with
            data_end := true,
            inbuf := w.take (w.length - MAC_SIZE), decrypt_err := true}
      ∧ ∀ d e, aes256_data_process {p with decB := d, encB := e} Mode.download ctx []
            outsize Action.dataEnd
          = aes256_data_process p Mode.download ctx [] outsize Action.dataEnd)
    ∧ ((p.h512 ctx.kmacBlk (w.take (w.length - MAC_SIZE))).take MAC_SIZE
        = w.drop (w.length - MAC_SIZE) →
      pkcs7Unpad (cbcDec p ctx.kaes ((w.take (w.length - MAC_SIZE)).take IV_SIZE)
        ((w.take (w.length - MAC_SIZE)).drop IV_SIZE)) = none →
      aes256_data_process p Mode.download ctx [] outsize Action.dataEnd
        = .error {ctx with
            data_end := true,
            inbuf := w.take (w.length - MAC_SIZE), decrypt_err := true}) := by
  have hpos : w ≠ [] := by
    intro h
    rw [h] at hlen
    simp only [List.length_nil, IV_SIZE, MAC_SIZE] at hlen
    omega
  have hstage := process_download_stageOnly p ctx w outsize hin hpos
  constructor
  · intro hmis
    have hblk := downloadBlock_tagMismatch p hp ctx.kmacBlk ctx.kaes w hlen hmis
    have hmain : aes256_data_process p Mode.download ctx [] outsize Action.dataEnd
        = .error {ctx with
            data_end := true,
            inbuf := w.take (w.length - MAC_SIZE), decrypt_err := true} := by
      rw [hstage, hblk]
      simp only [dlErrCtx]
      rw [hin]
    refine ⟨hmain, ?_⟩
    intro d e
    have hstage2 := process_download_stageOnly {p with decB := d, encB := e} ctx w
      outsize hin hpos
    have hblk2 := downloadBlock_tagMismatch {p with decB := d, encB := e} hp
      ctx.kmacBlk ctx.kaes w hlen hmis
    rw [hstage2, hblk2]
    simp only [dlErrCtx]
    rw [hin, hmain]
  · intro heq hpad
    have hblk := downloadBlock_padFail p hp ctx.kmacBlk ctx.kaes w hlen heq hpad
    rw [hstage, hblk]
    simp only [dlErrCtx]
    rw [hin]

def c3ctx : Ctx := {ctxOfKey [] with inbuf := List.replicate 47 0 ++ [1]}

def c3ctx2 : Ctx := {ctxOfKey [] with inbuf := List.replicate 48 0}

/-- Witness for C3: one wire block with a corrupted tag and one with a valid
tag but invalid padding, both rejected with `decrypt_err` set. -/
theorem C3_download_auth_failure_witness :
    (aes256_data_process toyPrims Mode.download c3ctx [] 99 Action.dataEnd
      = .error {c3ctx with
          data_end := true,
          inbuf := (List.replicate 47 0 ++ [1]).take 16, decrypt_err := true})
    ∧ (aes256_data_process toyPrims Mode.download c3ctx2 [] 99 Action.dataEnd
      = .error {c3ctx2 with
          data_end := true,
          inbuf := (List.replicate 48 0).take 16, decrypt_err := true}) := by
  constructor
  · exact ((C3_download_auth_failure toyPrims toyPrims_h512 c3ctx
      (List.replicate 47 0 ++ [1]) 99 rfl (by decide)).1 (by decide)).1
  · exact (C3_download_auth_failure toyPrims toyPrims_h512 c3ctx2
      (List.replicate 48 0) 99 rfl (by decide)).2 (by decide)
      (by
        rw [show ((List.replicate 48 0 : Bytes).take ((List.replicate 48 0 : Bytes).length
            - MAC_SIZE)).drop IV_SIZE = ([] : Bytes) by decide]
        rw [cbcDec]
        simp [pkcs7Unpad])

/-- C7: the encrypt path of `process` turns a staged plaintext block of
length `N` with `1 ≤ N ≤ 16384` into one wire block of exactly
`16 + ⌈(N+1)/16⌉·16 + 32` bytes: a 16-byte IV, the PKCS-padded
AES-256-CBC ciphertext, and a 32-byte truncated HMAC tag. -/
theorem C7_wire_block_length (p : Prims) (hp1 : GoodH1 p) (hp5 : GoodH512 p)
    (henc : GoodEnc p) (key P : Bytes) (hN1 : 1 ≤ P.length)
    (hN2 : P.length ≤ FILTER_BLOCK_SIZE) :
    ∃ ctx' act' iv ct tag,
      aes256_data_process p Mode.upload (ctxOfKey key) P OUTBUF Action.dataEnd
        = .ok (ctx', act', (iv ++ ct) ++ tag)
      ∧ iv.length = IV_SIZE
      ∧ ct = cbcEnc p (ctxOfKey key).kaes iv (pkcs7Pad P)
      ∧ tag.length = MAC_SIZE
      ∧ ((iv ++ ct) ++ tag).length
          = IV_SIZE + ((P.length + 1 + 15) / 16) * 16 + MAC_SIZE := by
  have hd : (ctxOfKey key).data_in < P.length := by
    simpa [ctxOfKey, initCtx] using hN1
  have hstep := process_upload_step p hp1 hp5 henc (ctxOfKey key) P rfl rfl rfl hd
  have hPt : (P.drop (ctxOfKey key).data_in).take FILTER_BLOCK_SIZE = P := by
    show (P.drop 0).take FILTER_BLOCK_SIZE = P
    rw [List.drop_zero]
    exact List.take_of_length_le hN2
  rw [hPt] at hstep
  refine ⟨_, _, _, _, _, hstep, ivOf_length p hp1 _ _ _, rfl, ?_, ?_⟩
  · rw [List.length_take, hp5]
    norm_num [MAC_SIZE]
  · rw [List.length_append, List.length_append, ivOf_length p hp1,
      cbcEnc_length p henc _ (pkcs7Pad P).length _ _ rfl
        (by rw [ivOf_length p hp1]; rfl) (pkcs7Pad_length_dvd P),
      List.length_take, hp5, pkcs7Pad_length]
    have hm : P.length % AES_BLOCK_SIZE < AES_BLOCK_SIZE :=
      Nat.mod_lt _ (by norm_num [AES_BLOCK_SIZE])
    simp only [IV_SIZE, MAC_SIZE, AES_BLOCK_SIZE] at *
    omega

/-- Witness for C7 at a one-byte plaintext: the wire block is
`16 + 16 + 32 = 64` bytes long. -/
theorem C7_wire_block_length_witness :
    (1 ≤ ([5] : Bytes).length ∧ ([5] : Bytes).length ≤ FILTER_BLOCK_SIZE) ∧
    ∃ ctx' act' iv ct tag,
      aes256_data_process toyPrims Mode.upload (ctxOfKey (List.range 64)) [5]
          OUTBUF Action.dataEnd
        = .ok (ctx', act', (iv ++ ct) ++ tag)
      ∧ iv.length = IV_SIZE
      ∧ ct = cbcEnc toyPrims (ctxOfKey (List.range 64)).kaes iv (pkcs7Pad [5])
      ∧ tag.length = MAC_SIZE
      ∧ ((iv ++ ct) ++ tag).length
          = IV_SIZE + ((([5] : Bytes).length + 1 + 15) / 16) * 16 + MAC_SIZE :=
  ⟨⟨by decide, by decide⟩,
    C7_wire_block_length toyPrims toyPrims_h1 toyPrims_h512 toyPrims_enc
      (List.range 64) [5] (by decide) (by decide)⟩

/-- Projections of the conditional end-flag update at line 499. -/
lemma setEnd_ivmac (c : Prop) [Decidable c] (ctx : Ctx) :
    (if c then {ctx with data_end := true} else ctx).ivmac = ctx.ivmac := by
  split <;> rfl

/-- C10: on upload each block's IV is the first 16 bytes of the HMAC-SHA-1
— keyed with the first 32 bytes of the master key, as `prepare` installs it
— of the full 64-byte `ivmac` buffer followed by the block plaintext; the
new digest overwrites only the first 20 bytes of `ivmac`, so bytes 20..63
stay zero across every successful `process` call, and the first block uses
an all-zero `ivmac`. -/
theorem C10_iv_chain (p : Prims) (hp1 : GoodH1 p) (key : Bytes) :
    (ctxOfKey key).ivmac = List.replicate EVP_MAX_MD_SIZE 0
    ∧ (ctxOfKey key).kmacIv = key.take (KEY_SIZE / 2)
    ∧ (∀ kblk kaes ivmac pt w v',
        uploadBlock p (key.take (KEY_SIZE / 2)) kblk kaes ivmac pt = .ok (w, v') →
          w.take IV_SIZE = (p.h1 (key.take (KEY_SIZE / 2)) (ivmac ++ pt)).take IV_SIZE
          ∧ v' = p.h1 (key.take (KEY_SIZE / 2)) (ivmac ++ pt) ++ ivmac.drop 20)
    ∧ (∀ ctx inp outsize act ctx' act' out,
        aes256_data_process p Mode.upload ctx inp outsize act = .ok (ctx', act', out) →
        ctx.ivmac.drop 20 = List.replicate 44 0 →
        ctx'.ivmac.drop 20 = List.replicate 44 0) := by
  refine ⟨rfl, rfl, ?_, ?_⟩
  · intro kblk kaes ivmac pt w v' h
    simp only [uploadBlock] at h
    split at h
    · exact absurd h (by simp)
    split at h
    · exact absurd h (by simp)
    rw [Except.ok.injEq, Prod.mk.injEq] at h
    obtain ⟨hw, hv⟩ := h
    subst hw hv
    constructor
    · rw [List.append_assoc,
        List.take_left' (ivOf_length p hp1 (key.take (KEY_SIZE / 2)) ivmac pt)]
    · rw [hp1]
  · intro ctx inp outsize act ctx' act' out h hzero
    simp only [aes256_data_process] at h
    by_cases hdr : act = Action.rep ∧ ctx.data_out_left ≠ 0
    · rw [if_pos hdr] at h
      simp only [drainOut] at h
      split at h
      · rw [Except.ok.injEq, Prod.mk.injEq, Prod.mk.injEq] at h
        obtain ⟨h1, -, -⟩ := h
        subst h1
        exact hzero
      split at h <;>
      · rw [Except.ok.injEq, Prod.mk.injEq, Prod.mk.injEq] at h
        obtain ⟨h1, -, -⟩ := h
        subst h1
        exact hzero
    · rw [if_neg hdr] at h
      by_cases hact : act = Action.dataEnd
      · rw [if_pos hact] at h
        split at h <;>
        · split at h
          · split at h
            · exact absurd h (by simp)
            · rename_i w ivmac' heq
              simp only [uploadBlock] at heq
              split at heq
              · exact absurd heq (by simp)
              split at heq
              · exact absurd heq (by simp)
              rw [Except.ok.injEq, Prod.mk.injEq] at heq
              obtain ⟨-, hv⟩ := heq
              simp only [emitBlock] at h
              split at h
              · rw [Except.ok.injEq, Prod.mk.injEq, Prod.mk.injEq] at h
                obtain ⟨h1, -, -⟩ := h
                subst h1
                show List.drop 20 ivmac' = List.replicate 44 0
                rw [← hv, hp1, List.drop_left' (hp1 _ _)]
                exact hzero
              split at h <;>
              · rw [Except.ok.injEq, Prod.mk.injEq, Prod.mk.injEq] at h
                obtain ⟨h1, -, -⟩ := h
                subst h1
                show List.drop 20 ivmac' = List.replicate 44 0
                rw [← hv, hp1, List.drop_left' (hp1 _ _)]
                exact hzero
          · rw [Except.ok.injEq, Prod.mk.injEq, Prod.mk.injEq] at h
            obtain ⟨h1, -, -⟩ := h
            subst h1
            exact hzero
      · rw [if_neg hact] at h
        split at h <;>
        · split at h
          · split at h
            · exact absurd h (by simp)
            · rename_i w ivmac' heq
              simp only [uploadBlock] at heq
              split at heq
              · exact absurd heq (by simp)
              split at heq
              · exact absurd heq (by simp)
              rw [Except.ok.injEq, Prod.mk.injEq] at heq
              obtain ⟨-, hv⟩ := heq
              simp only [emitBlock] at h
              split at h
              · rw [Except.ok.injEq, Prod.mk.injEq, Prod.mk.injEq] at h
                obtain ⟨h1, -, -⟩ := h
                subst h1
                show List.drop 20 ivmac' = List.replicate 44 0
                rw [← hv, hp1, List.drop_left' (hp1 _ _)]
                exact hzero
              split at h <;>
              · rw [Except.ok.injEq, Prod.mk.injEq, Prod.mk.injEq] at h
                obtain ⟨h1, -, -⟩ := h
                subst h1
                show List.drop 20 ivmac' = List.replicate 44 0
                rw [← hv, hp1, List.drop_left' (hp1 _ _)]
                exact hzero
          · rw [Except.ok.injEq, Prod.mk.injEq, Prod.mk.injEq] at h
            obtain ⟨h1, -, -⟩ := h
            subst h1
            exact hzero

/-- Witness for C10 at a concrete key and a concrete upload block. -/
theorem C10_iv_chain_witness :
    (ctxOfKey (List.range 64)).ivmac = List.replicate EVP_MAX_MD_SIZE 0
    ∧ (ctxOfKey (List.range 64)).kmacIv = (List.range 64).take (KEY_SIZE / 2) :=
  ⟨(C10_iv_chain toyPrims toyPrims_h1 (List.range 64)).1,
   (C10_iv_chain toyPrims toyPrims_h1 (List.range 64)).2.1⟩

/-- C5 counterexample context: two staged output bytes pending, nothing
ingested yet. -/
def c5ctx : Ctx := {ctxOfKey [] with blk := [7, 8], data_out_left := 2}

/-- C5 counterexample: entering `process` with `data_out_left = 2 ≤ outsize`
and a 3-byte input of which nothing is consumed: the drain empties the
staged output, and although the input is not fully consumed, the call
returns at once — `inbuf` stays empty and `data_in` stays 0, so no input
ingestion happens in this call; the outgoing action is `Repeat`. -/
theorem C5_cex :
    aes256_data_process toyPrims Mode.upload c5ctx [1, 2, 3] 10 Action.rep
      = .ok ({c5ctx with data_out_left := 0, blk := []}, Action.rep, [7, 8])
    ∧ ({c5ctx with data_out_left := 0, blk := []} : Ctx).inbuf = []
    ∧ ({c5ctx with data_out_left := 0, blk := []} : Ctx).data_in = 0 := by
  refine ⟨?_, rfl, rfl⟩
  rfl

/-- C5 amended: when the drain brings `data_out_left` to zero and the
caller's input is not yet fully consumed, `process` returns the drained
bytes immediately with action `Repeat`, leaving `data_in` and the input
staging buffer untouched; the remaining input is ingested only on the
host's next call. -/
theorem C5_drain_returns (p : Prims) (mode : Mode) (ctx : Ctx) (inp : Bytes)
    (outsize : Nat) (h1 : ctx.data_out_left ≠ 0) (h2 : ctx.data_out_left ≤ outsize)
    (h3 : ctx.data_in ≠ inp.length) :
    aes256_data_process p mode ctx inp outsize Action.rep
      = .ok ({ctx with data_out_left := 0, blk := []}, Action.rep,
             ctx.blk.drop (ctx.blk.length - ctx.data_out_left)) := by
  simp only [aes256_data_process]
  rw [if_pos ⟨trivial, h1⟩]
  simp only [drainOut]
  rw [if_neg (by omega), if_neg h3]

def c5ctx2 : Ctx := {ctxOfKey [] with blk := [4, 5, 6], data_out_left := 3}

/-- Witness for the amended C5 at a second concrete context. -/
theorem C5_drain_returns_witness :
    aes256_data_process toyPrims Mode.download c5ctx2 [9, 9] 3 Action.rep
      = .ok ({c5ctx2 with data_out_left := 0, blk := []}, Action.rep,
             c5ctx2.blk.drop (c5ctx2.blk.length - c5ctx2.data_out_left)) :=
  C5_drain_returns toyPrims Mode.download c5ctx2 [9, 9] 3 (by decide) (by decide)
    (by decide)


/-! ## Claims about `aes256_data_prepare` -/

/-- Projection facts used by the prepare claims: `persistKeyCache` touches
only the `keyfile` entry. -/
lemma persistKeyCache_custfp (o : KeyCacheIO) (k : Bytes) (fs : Fs) :
    (persistKeyCache o k fs).custfp = fs.custfp := by
  cases o <;> rfl

/-- Erasing the key cache from `persistKeyCache` gives back the input with
its key cache erased, whatever the I/O outcome was. -/
lemma persist_erase (o : KeyCacheIO) (k : Bytes) (fs : Fs) :
    {persistKeyCache o k fs with keyfile := none} = {fs with keyfile := none} := by
  cases o <;> rfl

/-- Key acquisition never touches `<cfgdir>/custfp`: it only reads the key
cache and possibly stores a fresh fingerprint in the metadata map. -/
lemma acquireKeyCore_custfp (pw : Bool → Bytes → Option Bytes)
    (fpD : Bytes → Bytes → Bytes) (rs : Bytes) (mode : Mode) (salt : Bytes)
    (fpOpt : Option Bytes) (fs : Fs) (k : Bytes) (pr : Bool) (fs2 : Fs)
    (h : acquireKeyCore pw fpD rs mode salt fpOpt fs = .ok (k, pr, fs2)) :
    fs2.custfp = fs.custfp := by
  simp only [acquireKeyCore] at h
  split at h
  · rw [Except.ok.injEq, Prod.mk.injEq, Prod.mk.injEq] at h
    obtain ⟨-, -, h3⟩ := h
    rw [← h3]
  · split at h
    · exact absurd h (by simp)
    · split at h
      · split at h
        · exact absurd h (by simp)
        · rw [Except.ok.injEq, Prod.mk.injEq, Prod.mk.injEq] at h
          obtain ⟨-, -, h3⟩ := h
          rw [← h3]
      · rw [Except.ok.injEq, Prod.mk.injEq, Prod.mk.injEq] at h
        obtain ⟨-, -, h3⟩ := h
        rw [← h3]

/-- Environment for the C1 witness: a cached 64-byte key, no metadata. -/
def E1 : PrepEnv :=
  { custfp := none, keyfile := some (List.range KEY_SIZE), meta := none,
    pwDerive := fun _ _ => none, fpDigest := fun _ _ => [],
    randSalt := [], saltInit := [], keyCache := KeyCacheIO.ok }

/-- C1: with a cached 64-byte master key and no metadata, `prepare` succeeds
and keys both HMAC contexts with the first 32 bytes of the key — but the
AES-256-CBC context is keyed from `actx->key + KEY_SIZE`, which is the
calloc-zeroed `ivmac` field, so the installed cipher key is 32 zero bytes
and (whenever the key's second half is not all zero) differs from the last
32 bytes of the derived key. -/
theorem C1_cipher_key_offset (E : PrepEnv) (key : Bytes) (mode : Mode)
    (rv cv : Nat) (hver : rv &&& VERSION_MASK = cv &&& VERSION_MASK)
    (hkf : E.keyfile = some key) (hlen : key.length = KEY_SIZE)
    (hmeta : E.meta = none) :
    ∃ st : PrepSt,
      aes256_data_prepare E none mode rv cv = .ok st
      ∧ st.key = key
      ∧ st.hmacIvKey = key.take (KEY_SIZE / 2)
      ∧ st.hmacBlkKey = key.take (KEY_SIZE / 2)
      ∧ st.aesKey = List.replicate 32 0
      ∧ (key.drop 32 ≠ List.replicate 32 0 → st.aesKey ≠ key.drop 32) := by
  have htake : key.take KEY_SIZE = key := List.take_of_length_le hlen.le
  have hzero : ((ctxKeyRegion key).drop KEY_SIZE).take 32 = List.replicate 32 0 := by
    rw [ctxKeyRegion, List.drop_left' (by simp [hlen, KEY_SIZE]), List.take_replicate]
    norm_num [EVP_MAX_MD_SIZE]
  have hmain : aes256_data_prepare E none mode rv cv = .ok (mkPrepSt key (fs0 E)) := by
    simp [aes256_data_prepare, custfpStep, dispatchStep, acquireKeyCore, keyFileRead,
      fs0, hmeta, hkf, hlen, hver, htake]
  refine ⟨mkPrepSt key (fs0 E), hmain, rfl, rfl, rfl, hzero, ?_⟩
  intro hne
  rw [show (mkPrepSt key (fs0 E)).aesKey = List.replicate 32 0 from hzero]
  exact hne.symm

/-- Witness for C1 with the key bytes `0, 1, …, 63`. -/
theorem C1_cipher_key_offset_witness :
    ∃ st : PrepSt,
      aes256_data_prepare E1 none Mode.upload 0 0 = .ok st
      ∧ st.key = List.range KEY_SIZE
      ∧ st.hmacIvKey = (List.range KEY_SIZE).take (KEY_SIZE / 2)
      ∧ st.hmacBlkKey = (List.range KEY_SIZE).take (KEY_SIZE / 2)
      ∧ st.aesKey = List.replicate 32 0
      ∧ ((List.range KEY_SIZE).drop 32 ≠ List.replicate 32 0 →
          st.aesKey ≠ (List.range KEY_SIZE).drop 32) :=
  C1_cipher_key_offset E1 (List.range KEY_SIZE) Mode.upload 0 0 rfl rfl
    (by simp) rfl

/-- Environment for the C4 counterexample: `custfp` holds 96 bytes of `7`,
the metadata fingerprint is 17 bytes of `1` (different), a 64-byte key
cache exists, the password prompt succeeds and the cache write succeeds. -/
def E4 : PrepEnv :=
  { custfp := some (List.replicate 96 7), keyfile := some (List.range 64),
    meta := some (List.replicate 17 1),
    pwDerive := fun _ _ => some (List.replicate 64 9),
    fpDigest := fun _ _ => List.replicate 64 3,
    randSalt := List.replicate 16 4, saltInit := [],
    keyCache := KeyCacheIO.ok }

/-- C4 counterexample: a password change with no configuration blob.  After
`prepare` succeeds, `<cfgdir>/custfp` is gone — it was unlinked and never
re-created with the new value — and `<cfgdir>/key` exists again, because
the freshly prompted key was written back to the cache. -/
theorem C4_cex :
    ∃ st : PrepSt,
      aes256_data_prepare E4 none Mode.upload 0 0 = .ok st
      ∧ st.fs.custfp = none
      ∧ st.fs.custfp ≠ some (List.replicate 17 1)
      ∧ st.fs.keyfile = some (List.replicate 64 9) := by
  refine ⟨_, rfl, ?_, ?_, ?_⟩ <;> decide

/-- C4 amended: when `custfp` holds a full-length value whose prefix differs
from the metadata fingerprint, the reconciliation step unlinks both
`custfp` and the key cache, and no later step of the same `prepare` call
re-creates `custfp` — any successful result leaves it absent (the key
cache, by contrast, may well be re-created by the cache write). -/
theorem C4_password_change (E : PrepEnv) (V1 V2 : Bytes) (cfgdata : Option Bytes)
    (mode : Mode) (rv cv : Nat)
    (hfp : E.custfp = some V1) (hlen : SALT_SIZE + FP_SIZE ≤ V1.length)
    (hmeta : E.meta = some V2)
    (hne : (V1.take (SALT_SIZE + FP_SIZE)).take V2.length ≠ V2)
    (hcfg : cfgdata = none ∨ cfgdata.map List.length = some (SALT_SIZE + 1))
    (hver : rv &&& VERSION_MASK = cv &&& VERSION_MASK) :
    custfpStep (fs0 E) cfgdata
      = .ok (some V2, {fs0 E with custfp := none, keyfile := none})
    ∧ ∀ st, aes256_data_prepare E cfgdata mode rv cv = .ok st →
        st.fs.custfp = none := by
  have h1 : custfpStep (fs0 E) cfgdata
      = .ok (some V2, {fs0 E with custfp := none, keyfile := none}) := by
    simp only [custfpStep, fs0, hmeta, hfp]
    rw [if_pos hcfg, if_neg (by omega), if_pos hne]
  refine ⟨h1, ?_⟩
  intro st h
  simp only [aes256_data_prepare] at h
  rw [if_neg (not_not_intro hver), h1] at h
  dsimp only at h
  split at h
  · exact absurd h (by simp)
  · split at h
    · rw [Except.ok.injEq] at h
      rw [← h]
      rfl
    · split at h
      · exact absurd h (by simp)
      · rename_i key prompted fs2 hacq
        rw [Except.ok.injEq] at h
        rw [← h]
        have h2 := acquireKeyCore_custfp _ _ _ _ _ _ _ _ _ _ hacq
        cases prompted
        · simpa [mkPrepSt] using h2
        · simpa [mkPrepSt, persistKeyCache_custfp] using h2

/-- Witness for the amended C4 in the counterexample environment. -/
theorem C4_password_change_witness :
    custfpStep (fs0 E4) none
      = .ok (some (List.replicate 17 1), {fs0 E4 with custfp := none, keyfile := none})
    ∧ ∀ st, aes256_data_prepare E4 none Mode.upload 0 0 = .ok st →
        st.fs.custfp = none :=
  C4_password_change E4 (List.replicate 96 7) (List.replicate 17 1) none
    Mode.upload 0 0 rfl (by decide) rfl (by decide) (Or.inl rfl) rfl

/-- Environment for the C6 counterexample: the metadata fingerprint is only
5 bytes long. -/
def E6 : PrepEnv :=
  { custfp := none, keyfile := none, meta := some (List.replicate 5 0),
    pwDerive := fun _ _ => none, fpDigest := fun _ _ => [],
    randSalt := [], saltInit := [], keyCache := KeyCacheIO.ok }

/-- C6 counterexample: a blob of the accepted length 17 still fails with a
configuration error, because the metadata value replaces the blob before the
length dispatch and its own length (here 5) is invalid. -/
theorem C6_cex :
    aes256_data_prepare E6 (some (List.replicate 17 2)) Mode.upload 0 0
      = .error (PrepErr.configError,
          { custfp := some (List.replicate 5 0), keyfile := none,
            meta := some (List.replicate 5 0) }) := rfl

/-- C6 amended: the 16/17/96 length dispatch applies to the blob *after*
metadata substitution.  A blob of any other length is always rejected with
a configuration error, and a 17-byte blob is likewise rejected whenever the
substituted metadata value itself has an invalid length. -/
theorem C6_blob_length_dispatch (E : PrepEnv) (c : Bytes) (mode : Mode)
    (rv cv : Nat) (hver : rv &&& VERSION_MASK = cv &&& VERSION_MASK) :
    (c.length ≠ SALT_SIZE → c.length ≠ SALT_SIZE + 1 →
      c.length ≠ SALT_SIZE + FP_SIZE →
      ∃ fs, aes256_data_prepare E (some c) mode rv cv
        = .error (PrepErr.configError, fs))
    ∧ (∀ m, E.meta = some m → E.custfp = none → c.length = SALT_SIZE + 1 →
        m.length ≠ SALT_SIZE → m.length ≠ SALT_SIZE + 1 →
        m.length ≠ SALT_SIZE + FP_SIZE →
      ∃ fs, aes256_data_prepare E (some c) mode rv cv
        = .error (PrepErr.configError, fs)) := by
  have hv' : ¬ rv &&& VERSION_MASK ≠ cv &&& VERSION_MASK := not_not_intro hver
  constructor
  · intro h16 h17 h96
    refine ⟨fs0 E, ?_⟩
    simp only [aes256_data_prepare, custfpStep, if_neg hv']
    rw [if_neg (by simp [h17])]
    dsimp only
    simp only [dispatchStep]
    rw [if_neg h16, if_neg h17, if_neg h96]
  · intro m hm hcf h17 hm16 hm17 hm96
    refine ⟨{fs0 E with custfp := some m}, ?_⟩
    simp only [aes256_data_prepare, custfpStep, fs0, hm, hcf, if_neg hv']
    rw [if_pos (Or.inr (by simp [h17]))]
    dsimp only
    simp only [dispatchStep]
    rw [if_neg hm16, if_neg hm17, if_neg hm96]

/-- Witness for the amended C6 at a 20-byte blob and a 5-byte metadata
value. -/
theorem C6_blob_length_dispatch_witness :
    (∃ fs, aes256_data_prepare E6 (some (List.replicate 20 2)) Mode.upload 0 0
        = .error (PrepErr.configError, fs))
    ∧ (∃ fs, aes256_data_prepare E6 (some (List.replicate 17 3)) Mode.upload 0 0
        = .error (PrepErr.configError, fs)) :=
  ⟨(C6_blob_length_dispatch E6 (List.replicate 20 2) Mode.upload 0 0 rfl).1
      (by decide) (by decide) (by decide),
   (C6_blob_length_dispatch E6 (List.replicate 17 3) Mode.upload 0 0 rfl).2
      (List.replicate 5 0) rfl rfl (by decide) (by decide) (by decide) (by decide)⟩

/-- Strip the key-cache entry from a `prepare` result. -/
def eraseKeyfile : Except (PrepErr × Fs) PrepSt → Except (PrepErr × Fs) PrepSt
  | .error (e, fs) => .error (e, {fs with keyfile := none})
  | .ok st => .ok {st with fs := {st.fs with keyfile := none}}

/-- C8: the outcome of the best-effort key-cache write influences nothing
but the cached file itself: two `prepare` runs that differ only in the
cache-write outcome agree exactly once the `keyfile` entry is erased — in
particular one succeeds if and only if the other does, with the same error
kind and the same session keys. -/
theorem C8_cache_failure_harmless (E : PrepEnv) (cfg : Option Bytes)
    (mode : Mode) (rv cv : Nat) (o o' : KeyCacheIO) :
    eraseKeyfile (aes256_data_prepare {E with keyCache := o} cfg mode rv cv)
      = eraseKeyfile (aes256_data_prepare {E with keyCache := o'} cfg mode rv cv) := by
  simp only [aes256_data_prepare, fs0]
  split
  · rfl
  · split
    · rfl
    · split
      · rfl
      · split
        · rfl
        · split
          · rfl
          · rename_i key prompted fs2 hacq
            cases prompted
            · rfl
            · simp [eraseKeyfile, mkPrepSt, persist_erase]

/-- Environment for the C9 witness: no metadata, no key cache, a password
prompt that succeeds and echoes the salt it was shown. -/
def E9 : PrepEnv :=
  { custfp := none, keyfile := none, meta := none,
    pwDerive := fun _ s => some (s ++ List.replicate 48 8),
    fpDigest := fun _ _ => [6],
    randSalt := List.replicate 16 4, saltInit := List.replicate 16 9,
    keyCache := KeyCacheIO.ok }

/-- C9: a `prepare` call with no configuration blob is never a configuration
error.  If the metadata map holds `aes256_fp`, that value becomes the blob;
if it does not, the whole dispatch is skipped and `prepare` goes straight to
the key-cache read and, failing that, to password derivation over the
never-initialised salt buffer — whose stale contents also end up in the
fingerprint stored back into the metadata map. -/
theorem C9_null_blob (E : PrepEnv) (mode : Mode) (rv cv : Nat)
    (hver : rv &&& VERSION_MASK = cv &&& VERSION_MASK) :
    (∀ m, E.meta = some m → ∀ r, custfpStep (fs0 E) none = .ok r → r.1 = some m)
    ∧ (E.meta = none → ∀ k, keyFileRead E.keyfile = some k →
        aes256_data_prepare E none mode rv cv = .ok (mkPrepSt k (fs0 E)))
    ∧ (E.meta = none → keyFileRead E.keyfile = none →
        E.pwDerive (mode = Mode.upload) E.saltInit = none →
        aes256_data_prepare E none mode rv cv = .error (.passwordFail, fs0 E))
    ∧ (E.meta = none → keyFileRead E.keyfile = none → ∀ k,
        E.pwDerive (mode = Mode.upload) E.saltInit = some k →
        aes256_data_prepare E none mode rv cv
          = .ok (mkPrepSt k (persistKeyCache E.keyCache k
              {fs0 E with meta := some (E.saltInit.take SALT_SIZE ++
                (E.randSalt.take SALT_SIZE ++
                  E.fpDigest k (E.randSalt.take SALT_SIZE)))}))) := by
  have hv' : ¬ rv &&& VERSION_MASK ≠ cv &&& VERSION_MASK := not_not_intro hver
  refine ⟨?_, ?_, ?_, ?_⟩
  · intro m hm r h
    simp only [custfpStep, fs0, hm] at h
    rw [if_pos (Or.inl trivial)] at h
    split at h
    · rw [Except.ok.injEq] at h
      rw [← h]
    · split at h
      · exact absurd h (by simp)
      · split at h
        · rw [Except.ok.injEq] at h
          rw [← h]
        · rw [Except.ok.injEq] at h
          rw [← h]
  · intro hm k hk
    simp [aes256_data_prepare, custfpStep, dispatchStep, acquireKeyCore, fs0, hm,
      hk, hv']
  · intro hm hk hp
    simp [aes256_data_prepare, custfpStep, dispatchStep, acquireKeyCore, fs0, hm,
      hk, hp, hv']
  · intro hm hk k hp
    simp [aes256_data_prepare, custfpStep, dispatchStep, acquireKeyCore, fs0, hm,
      hk, hp, hv']

/-- Witness for C9: with no metadata, no key cache and a successful prompt,
`prepare` succeeds using the uninitialised salt. -/
theorem C9_null_blob_witness :
    (∀ m, E9.meta = some m → ∀ r, custfpStep (fs0 E9) none = .ok r → r.1 = some m)
    ∧ (E9.meta = none → ∀ k, keyFileRead E9.keyfile = some k →
        aes256_data_prepare E9 none Mode.upload 0 0 = .ok (mkPrepSt k (fs0 E9)))
    ∧ (E9.meta = none → keyFileRead E9.keyfile = none →
        E9.pwDerive (Mode.upload = Mode.upload) E9.saltInit = none →
        aes256_data_prepare E9 none Mode.upload 0 0 = .error (.passwordFail, fs0 E9))
    ∧ (E9.meta = none → keyFileRead E9.keyfile = none → ∀ k,
        E9.pwDerive (Mode.upload = Mode.upload) E9.saltInit = some k →
        aes256_data_prepare E9 none Mode.upload 0 0
          = .ok (mkPrepSt k (persistKeyCache E9.keyCache k
              {fs0 E9 with meta := some (E9.saltInit.take SALT_SIZE ++
                (E9.randSalt.take SALT_SIZE ++
                  E9.fpDigest k (E9.randSalt.take SALT_SIZE)))}))) :=
  C9_null_blob E9 Mode.upload 0 0 rfl


end Aes256
